import Mathlib

/-!
# Receipt processor: scoring rules

A shallow embedding of `main.go`.  The seven point rules and
`calculateTotalPoints` are transcribed from the Go source.  The Go
standard-library calls they make (`regexp`, `strings.TrimSpace`,
`strconv.ParseFloat`, `math.Floor`, `math.Ceil`, `math.Mod`, `time.Parse`)
are modelled by executable Lean functions that follow the documented
behaviour of those packages.

Conventions.
* A Go `string` is a Lean `String`.  Every string of a receipt comes out of
  `encoding/json`, which only produces valid UTF-8, and `len` of a Go string
  is its number of UTF-8 bytes: `String.utf8ByteSize`.
* A Go `int` is a 64-bit two's-complement integer: an `Int` kept in range by
  `wrap64` after each addition.  Lengths of strings and slices are below
  `2^63` and are not wrapped.
* A `float64` is `F64`: NaN, the two infinities, or a finite value held as
  the rational number it denotes.  The sign of a zero is not kept: no
  operation of this program can observe it.
* The two handlers of `main` are functions of the state of the process and
  of the request.  The state is `receiptPointsMap` and the number of draws
  made from the random source of `uuid.New`; requests are served one at a
  time.  The loop of `uniqueReceiptUUID` runs on fuel.  A path is a `String`,
  split at the character `/`.
-/

namespace ReceiptProcessor

/-! ## Go `int` -/

/-- The value of a 64-bit two's-complement integer after overflow. -/
def wrap64 (x : ℤ) : ℤ := (x + 2 ^ 63) % 2 ^ 64 - 2 ^ 63

/-- Go `a + b` on `int`. -/
def addInt (a b : ℤ) : ℤ := wrap64 (a + b)

/-- Go `len(s)` for a string: the number of bytes of its UTF-8 encoding. -/
def len (s : String) : ℤ := (s.utf8ByteSize : ℤ)

/-! ## `regexp` and `strings` -/

/-- Membership in the character class `[a-zA-Z0-9]`. -/
def isAlnum (c : Char) : Bool :=
  ('a' ≤ c && c ≤ 'z') || ('A' ≤ c && c ≤ 'Z') || ('0' ≤ c && c ≤ '9')

/-- The call `regexp.MustCompile("[^a-zA-Z0-9]").ReplaceAllString(s, "")`:
every character outside the class is a match and is replaced by nothing. -/
def stripNonAlnum (s : String) : String := ⟨s.data.filter isAlnum⟩

/-- Go `unicode.IsSpace`: the Unicode White_Space code points. -/
def isSpace (c : Char) : Bool :=
  let n := c.toNat
  (0x09 ≤ n && n ≤ 0x0D) || n = 0x20 || n = 0x85 || n = 0xA0 || n = 0x1680 ||
  (0x2000 ≤ n && n ≤ 0x200A) || n = 0x2028 || n = 0x2029 || n = 0x202F ||
  n = 0x205F || n = 0x3000

/-- Go `strings.TrimSpace`: leading and trailing white space removed. -/
def TrimSpace (s : String) : String :=
  ⟨((s.data.dropWhile isSpace).reverse.dropWhile isSpace).reverse⟩

/-! ## `float64` -/

/-- A `float64` value.  A finite value is the rational number it denotes. -/
inductive F64 where
  | nan : F64
  | inf (neg : Bool) : F64
  | fin (v : ℚ) : F64
  deriving DecidableEq

/-- The power `b ^ e` for an integer exponent, as a rational. -/
def qpow (b : ℕ) (e : ℤ) : ℚ :=
  if 0 ≤ e then ((b ^ e.toNat : ℕ) : ℚ) else 1 / ((b ^ (-e).toNat : ℕ) : ℚ)

/-- Binary logarithm of a natural number, rounded down, by halving. -/
def log2Fuel : ℕ → ℕ → ℕ
  | 0, _ => 0
  | fuel + 1, n => if n < 2 then 0 else log2Fuel fuel (n / 2) + 1

/-- Binary logarithm of a natural number, rounded down (`0` at `0`). -/
def nlog2 (n : ℕ) : ℕ := log2Fuel n n

/-- The binary exponent of a non-zero rational: the `e` with
`2 ^ e ≤ |q| < 2 ^ (e + 1)`. -/
def ilog2 (q : ℚ) : ℤ :=
  let e0 : ℤ := (nlog2 q.num.natAbs : ℤ) - (nlog2 q.den : ℤ)
  if qpow 2 e0 ≤ |q| then e0 else e0 - 1

/-- IEEE 754 binary64 rounding to nearest, ties to even, with gradual
underflow and an unbounded upper exponent: the multiple of the unit in the
last place nearest to `q`.  The unit in the last place of a value of binary
exponent `e` is `2 ^ (e - 52)`, and `2 ^ (-1074)` below `2 ^ (-1022)`. -/
def roundNE (q : ℚ) : ℚ :=
  if q = 0 then 0 else
  let e : ℤ := max (ilog2 q) (-1022)
  let ulp : ℚ := qpow 2 (e - 52)
  let k : ℚ := q / ulp
  let f : ℤ := ⌊k⌋
  let r : ℚ := k - f
  let m : ℤ := if r < 1 / 2 then f else if 1 / 2 < r then f + 1
    else if f % 2 = 0 then f else f + 1
  m * ulp

/-- Whether a rounded magnitude is beyond the largest finite `float64`. -/
def overflows (r : ℚ) : Bool := decide (qpow 2 1024 ≤ |r|)

/-- The `float64` nearest to a rational; an infinity on overflow. -/
def F64.ofRat (q : ℚ) : F64 :=
  let r := roundNE q
  if overflows r then F64.inf (decide (q < 0)) else F64.fin r

/-- The untyped constant `0.2` converted to `float64`. -/
def c0_2 : F64 := F64.ofRat (2 / 10)

/-- The untyped constant `.25` converted to `float64`. -/
def c0_25 : F64 := F64.ofRat (25 / 100)

/-- The untyped constant `0.0` converted to `float64`. -/
def c0 : F64 := F64.fin 0

/-- Go `x * y` on `float64`. -/
def F64.mul : F64 → F64 → F64
  | F64.nan, _ => F64.nan
  | _, F64.nan => F64.nan
  | F64.inf a, F64.inf b => F64.inf (a != b)
  | F64.inf a, F64.fin v => if v = 0 then F64.nan else F64.inf (a != decide (v < 0))
  | F64.fin v, F64.inf b => if v = 0 then F64.nan else F64.inf (decide (v < 0) != b)
  | F64.fin v, F64.fin w => F64.ofRat (v * w)

/-- Go `x == y` on `float64`: NaN equals nothing, the two zeros are equal. -/
def F64.eq : F64 → F64 → Bool
  | F64.inf a, F64.inf b => a == b
  | F64.fin v, F64.fin w => decide (v = w)
  | _, _ => false

/-- Go `x != y` on `float64`. -/
def F64.ne (x y : F64) : Bool := !(F64.eq x y)

/-- Go `math.Floor`. -/
def F64.Floor : F64 → F64
  | F64.fin v => F64.fin (⌊v⌋ : ℤ)
  | x => x

/-- Go `math.Ceil`. -/
def F64.Ceil : F64 → F64
  | F64.fin v => F64.fin (⌈v⌉ : ℤ)
  | x => x

/-- The integer part of a rational, rounding toward zero. -/
def truncQ (q : ℚ) : ℤ := if 0 ≤ q then ⌊q⌋ else ⌈q⌉

/-- Go `math.Mod(x, y)`: the remainder of `x / y` with the sign of `x`, which
is exact.  `Mod(±Inf, y)`, `Mod(NaN, y)`, `Mod(x, 0)` and `Mod(x, NaN)` are
NaN, and `Mod(x, ±Inf)` is `x`. -/
def F64.Mod : F64 → F64 → F64
  | F64.nan, _ => F64.nan
  | _, F64.nan => F64.nan
  | F64.inf _, _ => F64.nan
  | F64.fin v, F64.inf _ => F64.fin v
  | F64.fin v, F64.fin w => if w = 0 then F64.nan else F64.fin (v - w * (truncQ (v / w) : ℤ))

/-- Go `int(f)` for a `float64`: the fraction is discarded.  When the value
is NaN, infinite or outside the range of `int`, the conversion still
succeeds and the result is implementation-dependent; `oor` is what the
platform returns there. -/
def F64.toInt (oor : F64 → ℤ) : F64 → ℤ
  | F64.fin v =>
    if -(2 : ℤ) ^ 63 ≤ truncQ v ∧ truncQ v < (2 : ℤ) ^ 63 then truncQ v
    else wrap64 (oor (F64.fin v))
  | x => wrap64 (oor x)

/-! ## `strconv.ParseFloat` -/

/-- The two errors of `strconv`: `ErrSyntax` and `ErrRange`. -/
inductive NumError where
  | errSyn : NumError
  | errRange : NumError
  deriving DecidableEq, Repr

/-- A decimal digit. -/
def isDigit (c : Char) : Bool := '0' ≤ c && c ≤ '9'

/-- The value of a decimal digit. -/
def digitVal (c : Char) : ℕ := c.toNat - '0'.toNat

/-- A letter `a` to `f` in either case. -/
def isHexLetter (c : Char) : Bool := ('a' ≤ c && c ≤ 'f') || ('A' ≤ c && c ≤ 'F')

/-- The value of a hexadecimal letter. -/
def hexLetterVal (c : Char) : ℕ :=
  if 'a' ≤ c then c.toNat - 'a'.toNat + 10 else c.toNat - 'A'.toNat + 10

/-- Go `commonPrefixLenIgnoreCase(s, pfx)` for a lower-case `pfx`. -/
def commonPrefixLenIgnoreCase : List Char → List Char → ℕ
  | c :: s, p :: pfx =>
    let c1 := if 'A' ≤ c && c ≤ 'Z' then Char.ofNat (c.toNat + 32) else c
    if c1 ≠ p then 0 else commonPrefixLenIgnoreCase s pfx + 1
  | _, _ => 0

/-- Go `special`: the forms `inf`, `infinity` (optionally signed) and `nan`,
in any case; the value and the number of characters read. -/
def special (s : List Char) : Option (F64 × ℕ) :=
  match s with
  | [] => none
  | c :: rest =>
    if c = '+' ∨ c = '-' then
      let n := commonPrefixLenIgnoreCase rest "infinity".data
      let n := if 3 < n ∧ n < 8 then 3 else n
      if n = 3 ∨ n = 8 then some (F64.inf (decide (c = '-')), 1 + n) else none
    else if c = 'i' ∨ c = 'I' then
      let n := commonPrefixLenIgnoreCase s "infinity".data
      let n := if 3 < n ∧ n < 8 then 3 else n
      if n = 3 ∨ n = 8 then some (F64.inf false, n) else none
    else if c = 'n' ∨ c = 'N' then
      if commonPrefixLenIgnoreCase s "nan".data = 3 then some (F64.nan, 3) else none
    else none

/-- The state of the digit loop of Go `readFloat`.  `mant` collects every
significant digit: the cut after 19 digits and the `trunc` flag of the Go
code only choose between conversion paths that all round correctly. -/
structure Digits where
  mant : ℕ
  nd : ℤ
  dp : ℤ
  sawdot : Bool
  sawdigits : Bool
  underscores : Bool

/-- The digit loop of Go `readFloat` in base `10` or `16`; returns the state
and the unread rest. -/
def readDigits (hex : Bool) : List Char → Digits → Digits × List Char
  | [], st => (st, [])
  | c :: cs, st =>
    if c = '_' then readDigits hex cs { st with underscores := true }
    else if c = '.' then
      if st.sawdot then (st, c :: cs)
      else readDigits hex cs { st with sawdot := true, dp := st.nd }
    else if isDigit c then
      if c = '0' ∧ st.nd = 0 then
        readDigits hex cs { st with sawdigits := true, dp := st.dp - 1 }
      else
        let m := st.mant * (if hex then 16 else 10) + digitVal c
        readDigits hex cs { st with sawdigits := true, nd := st.nd + 1, mant := m }
    else if hex ∧ isHexLetter c then
      let m := st.mant * 16 + hexLetterVal c
      readDigits hex cs { st with sawdigits := true, nd := st.nd + 1, mant := m }
    else (st, c :: cs)

/-- The exponent loop of Go `readFloat`: digits and underscores; the value
stops growing once it has reached `10000`. -/
def readExp : List Char → ℤ → Bool → ℤ × Bool × List Char
  | [], e, us => (e, us, [])
  | c :: cs, e, us =>
    if isDigit c then readExp cs (if e < 10000 then e * 10 + digitVal c else e) us
    else if c = '_' then readExp cs e true
    else (e, us, c :: cs)

/-- Go `underscoreOK`, after the sign and the base prefix: `saw` is the kind
of the last character (`'0'` digit, `'_'` underscore, `'!'` other, `'^'`
start). -/
def underscoreLoop (hex : Bool) : List Char → Char → Bool
  | [], saw => saw ≠ '_'
  | c :: cs, saw =>
    if isDigit c || (hex && isHexLetter c) then underscoreLoop hex cs '0'
    else if c = '_' then
      if saw ≠ '0' then false else underscoreLoop hex cs '_'
    else if saw = '_' then false
    else underscoreLoop hex cs '!'

/-- Go `underscoreOK`: an underscore stands only between digits, or between
a base prefix and a digit. -/
def underscoreOK (s : List Char) : Bool :=
  let s := match s with
    | c :: cs => if c = '-' ∨ c = '+' then cs else c :: cs
    | [] => []
  match s with
  | c0 :: c1 :: cs =>
    if c0 = '0' ∧ (c1 = 'b' ∨ c1 = 'B' ∨ c1 = 'o' ∨ c1 = 'O' ∨ c1 = 'x' ∨ c1 = 'X') then
      underscoreLoop (decide (c1 = 'x' ∨ c1 = 'X')) cs '0'
    else underscoreLoop false (c0 :: c1 :: cs) '^'
  | _ => underscoreLoop false s '^'

/-- The number read by Go `readFloat`: sign, base, digits and the exponent of
the base (`10`, or `2` for a hexadecimal mantissa) to apply to them. -/
structure Literal where
  neg : Bool
  hex : Bool
  mant : ℕ
  exp : ℤ

/-- Go `readFloat`, for a string that is read to its end: `none` when it is
not a floating-point literal. -/
def readFloat (s : List Char) : Option Literal :=
  match s with
  | [] => none
  | c :: cs =>
    let neg : Bool := decide (c = '-')
    let s1 : List Char := if c = '+' ∨ c = '-' then cs else c :: cs
    let hex : Bool := match s1 with
      | c0 :: c1 :: _ :: _ => decide (c0 = '0' ∧ (c1 = 'x' ∨ c1 = 'X'))
      | _ => false
    let s2 : List Char := if hex then s1.drop 2 else s1
    let (st, s3) := readDigits hex s2 ⟨0, 0, 0, false, false, false⟩
    if !st.sawdigits then none else
    let dp0 : ℤ := if st.sawdot then st.dp else st.nd
    let dp1 : ℤ := if hex then dp0 * 4 else dp0
    let ndMant : ℤ := if hex then st.nd * 4 else st.nd
    let expChar : Char := if hex then 'p' else 'e'
    let finish (dp : ℤ) (us : Bool) (rest : List Char) : Option Literal :=
      if us && !underscoreOK s then none
      else if rest ≠ [] then none
      else some ⟨neg, hex, st.mant, if st.mant ≠ 0 then dp - ndMant else 0⟩
    match s3 with
    | x :: s4 =>
      if x = expChar ∨ x = expChar.toUpper then
        match s4 with
        | [] => none
        | y :: s5 =>
          let esign : ℤ := if y = '-' then -1 else 1
          let s6 : List Char := if y = '+' ∨ y = '-' then s5 else y :: s5
          match s6 with
          | [] => none
          | z :: _ =>
            if !isDigit z then none else
            let (e, us, rest) := readExp s6 0 st.underscores
            finish (dp1 + e * esign) us rest
      else if hex then none
      else finish dp1 st.underscores s3
    | [] => if hex then none else finish dp1 st.underscores []

/-- The exact value of a literal. -/
def Literal.value (l : Literal) : ℚ :=
  (if l.neg then -1 else 1) * (l.mant : ℚ) * qpow (if l.hex then 2 else 10) l.exp

/-- Go `strconv.ParseFloat(s, 64)`: the `float64` nearest to the literal
(ties to even).  A string that is not a literal is an `ErrSyntax`; a value
that rounds beyond the largest `float64` is an `ErrRange`; a value that
underflows is rounded, to zero if need be, without error. -/
def ParseFloat (s : String) : Except NumError F64 :=
  match special s.data with
  | some (f, n) => if n = s.data.length then .ok f else .error NumError.errSyn
  | none =>
    match readFloat s.data with
    | none => .error NumError.errSyn
    | some l =>
      let r := roundNE l.value
      if overflows r then .error NumError.errRange else .ok (F64.fin r)

/-- Equality of `strconv.ParseFloat` results is decidable. -/
instance instDecidableEqParse : DecidableEq (Except NumError F64)
  | .ok a, .ok b => if h : a = b then isTrue (by rw [h]) else isFalse (by simp [h])
  | .error a, .error b => if h : a = b then isTrue (by rw [h]) else isFalse (by simp [h])
  | .ok _, .error _ => isFalse (by simp)
  | .error _, .ok _ => isFalse (by simp)

/-! ## `time.Parse` -/

/-- The fields of a Go `time.Time` that the layouts of this program set. -/
structure Time where
  year : ℤ
  month : ℤ
  day : ℤ
  hour : ℤ
  min : ℤ
  deriving DecidableEq, Repr

/-- Go `Time.Day`. -/
def Time.Day (t : Time) : ℤ := t.day

/-- Go `Time.Hour`. -/
def Time.Hour (t : Time) : ℤ := t.hour

/-- Go `Time.Minute`. -/
def Time.Minute (t : Time) : ℤ := t.min

/-- Go `getnum` of package `time`: a number of one or two digits, of exactly
two digits when `fixed`; the number and the unread rest. -/
def getnum (s : List Char) (fixed : Bool) : Option (ℤ × List Char) :=
  match s with
  | [] => none
  | a :: rest =>
    if !isDigit a then none else
    match rest with
    | b :: rest2 =>
      if isDigit b then some ((digitVal a : ℤ) * 10 + (digitVal b : ℤ), rest2)
      else if fixed then none else some ((digitVal a : ℤ), rest)
    | [] => if fixed then none else some ((digitVal a : ℤ), rest)

/-- Go `isLeap`. -/
def isLeap (year : ℤ) : Bool := year % 4 = 0 && (year % 100 ≠ 0 || year % 400 = 0)

/-- Go `daysIn`: the number of days of a month, `1` to `12`, of a year. -/
def daysIn (m : ℤ) (year : ℤ) : ℤ :=
  if m = 2 ∧ isLeap year then 29
  else if m = 2 then 28
  else if m = 4 ∨ m = 6 ∨ m = 9 ∨ m = 11 then 30
  else 31

/-- Go `time.Parse("2006-01-02", value)`: four digits of year, `-`, two
digits of month, `-`, two digits of day and nothing more; the month is `1`
to `12` and the day exists in that month of that year.  `none` is an error. -/
def parseDate (value : String) : Option Time :=
  match value.data with
  | y1 :: y2 :: y3 :: y4 :: v1 =>
    if !(isDigit y1 && isDigit y2 && isDigit y3 && isDigit y4) then none else
    let year : ℤ := (digitVal y1 : ℤ) * 1000 + (digitVal y2 : ℤ) * 100 +
      (digitVal y3 : ℤ) * 10 + (digitVal y4 : ℤ)
    match v1 with
    | '-' :: v2 =>
      match getnum v2 true with
      | none => none
      | some (month, v3) =>
        if month ≤ 0 ∨ 12 < month then none else
        match v3 with
        | '-' :: v4 =>
          match getnum v4 true with
          | none => none
          | some (day, v5) =>
            if v5 ≠ [] then none
            else if day < 1 ∨ day > daysIn month year then none
            else some ⟨year, month, day, 0, 0⟩
        | _ => none
    | _ => none
  | _ => none

/-- Go `time.Parse("15:04", value)`: one or two digits of hour, `:`, two
digits of minute and nothing more; the hour is below `24` and the minute
below `60`.  The date is January 1 of year 0.  `none` is an error. -/
def parseClock (value : String) : Option Time :=
  match getnum value.data false with
  | none => none
  | some (hour, v1) =>
    if hour < 0 ∨ 24 ≤ hour then none else
    match v1 with
    | ':' :: v2 =>
      match getnum v2 true with
      | none => none
      | some (min, v3) =>
        if min < 0 ∨ 60 ≤ min then none
        else if v3 ≠ [] then none
        else some ⟨0, 1, 1, hour, min⟩
    | _ => none

/-! ## Data model -/

/-- Go `type Item struct`. -/
structure Item where
  ShortDescription : String
  Price : String
  deriving DecidableEq, Repr

/-- Go `type Receipt struct`. -/
structure Receipt where
  Retailer : String
  PurchaseDate : String
  PurchaseTime : String
  Items : List Item
  Total : String
  deriving DecidableEq, Repr

/-! ## The rules -/

/-- Go `pointsForRetailerName`. -/
def pointsForRetailerName (retailerName : String) : ℤ :=
  let strippedName := stripNonAlnum retailerName
  len strippedName

/-- Go `pointsForReceiptTotal`. -/
def pointsForReceiptTotal (total : String) : ℤ :=
  match ParseFloat total with
  | .error _ => 0
  | .ok floatTotal =>
    if F64.eq floatTotal (F64.Floor floatTotal) then 50 else 0

/-- Go `pointsForReceiptTotalMultipleOfQuarter`. -/
def pointsForReceiptTotalMultipleOfQuarter (total : String) : ℤ :=
  match ParseFloat total with
  | .error _ => 0
  | .ok fltTotal =>
    if F64.eq (F64.Mod fltTotal c0_25) c0 && F64.ne fltTotal c0 then 25 else 0

/-- Go `pointsPerTwoItems`.  An `Item` takes 32 bytes, so a slice has fewer
than `2^59` of them and the product stays in the range of `int`. -/
def pointsPerTwoItems (items : List Item) : ℤ :=
  let length : ℤ := (items.length : ℤ)
  (length / 2) * 5

/-- Go `pointsForShortDescription`.  The message printed when the price does
not parse is not part of the result.  A length is not negative, where the
remainder of Go and the remainder of Lean agree. -/
def pointsForShortDescription (oor : F64 → ℤ) (item : Item) : ℤ :=
  let strippedShortDesc := TrimSpace item.ShortDescription
  match ParseFloat item.Price with
  | .error _ => 0
  | .ok price =>
    if len strippedShortDesc % 3 = 0 ∧ len strippedShortDesc ≠ 0 then
      let points := F64.Ceil (F64.mul price c0_2)
      F64.toInt oor points
    else 0

/-- Go `totalPointsForShortDescription`: the loop `res += ...` over the
items, from `res := 0`. -/
def totalPointsForShortDescription (oor : F64 → ℤ) (items : List Item) : ℤ :=
  items.foldl (fun res item => addInt res (pointsForShortDescription oor item)) 0

/-- Go `pointsForOddDay`.  The day of a parsed date is at least 1, where the
remainder of Go and the remainder of Lean agree. -/
def pointsForOddDay (purchaseDate : String) : ℤ :=
  match parseDate purchaseDate with
  | none => 0
  | some parsedDate =>
    let day := parsedDate.Day
    if day % 2 ≠ 0 then 6 else 0

/-- Go `pointsForPurchaseTime`. -/
def pointsForPurchaseTime (purchaseTime : String) : ℤ :=
  match parseClock purchaseTime with
  | none => 0
  | some t =>
    if (t.Hour > 14 ∧ t.Hour < 16) ∨ (t.Hour = 14 ∧ t.Minute > 0) then 10 else 0

/-- Go `calculateTotalPoints`. -/
def calculateTotalPoints (oor : F64 → ℤ) (receipt : Receipt) : ℤ :=
  addInt (addInt (addInt (addInt (addInt (addInt
    (pointsForPurchaseTime receipt.PurchaseTime)
    (pointsForOddDay receipt.PurchaseDate))
    (totalPointsForShortDescription oor receipt.Items))
    (pointsPerTwoItems receipt.Items))
    (pointsForReceiptTotalMultipleOfQuarter receipt.Total))
    (pointsForRetailerName receipt.Retailer))
    (pointsForReceiptTotal receipt.Total)

/-! ## `github.com/google/uuid` -/

/-- A lower-case hexadecimal digit, as Go `hex.Encode` writes it. -/
def hexDigit (n : ℕ) : Char := if n < 10 then Char.ofNat (48 + n) else Char.ofNat (87 + n)

/-- The two hexadecimal digits of a byte. -/
def hexByte (b : ℕ) : List Char := [hexDigit (b / 16 % 16), hexDigit (b % 16)]

/-- Go `hex.Encode`: two digits for each byte. -/
def hexEncode : List ℕ → List Char
  | [] => []
  | b :: bs => hexByte b ++ hexEncode bs

/-- Go `uuid.New`: the 16 bytes read from the random source, those of the
number `r` with the most significant first, with the version set to 4 in
byte 6 and the variant set to `10` in byte 8. -/
def uuidNew (r : ℕ) : List ℕ :=
  (List.range 16).map (fun i =>
    let b := r / 256 ^ (15 - i) % 256
    if i = 6 then b % 16 + 64 else if i = 8 then b % 64 + 128 else b)

/-- Go `UUID.String`: the form `xxxxxxxx-xxxx-xxxx-xxxx-xxxxxxxxxxxx`. -/
def uuidString (u : List ℕ) : String :=
  ⟨hexEncode (u.take 4) ++ ['-'] ++ hexEncode ((u.drop 4).take 2) ++ ['-'] ++
    hexEncode ((u.drop 6).take 2) ++ ['-'] ++ hexEncode ((u.drop 8).take 2) ++ ['-'] ++
    hexEncode (u.drop 10)⟩

/-! ## The store and the handlers -/

/-- Go `receiptPointsMap`, a `map[string]int`: the entries, one for a key. -/
abbrev Store := List (String × ℤ)

/-- Go `m[k]` with the comma-ok form: the value stored under `k`, if any. -/
def mapGet : Store → String → Option ℤ
  | [], _ => none
  | (k, v) :: m, id => if id = k then some v else mapGet m id

/-- Go `m[k] = v`: the entry of `k` is replaced or added. -/
def mapSet (m : Store) (k : String) (v : ℤ) : Store :=
  (k, v) :: m.filter (fun e => decide (e.1 ≠ k))

/-- Go `strings.Split(s, "/")` on the characters of `s`. -/
def splitChars : List Char → List (List Char)
  | [] => [[]]
  | c :: cs =>
    if c = '/' then [] :: splitChars cs
    else
      match splitChars cs with
      | [] => [[c]]
      | p :: ps => (c :: p) :: ps

/-- Go `strings.Split(s, "/")`.  The separator is one byte, which in UTF-8
stands for the character `/` alone. -/
def Split (s : String) : List String := (splitChars s.data).map String.mk

/-- What a handler reads of a Go `http.Request`: the method, `URL.Path` and
the body. -/
structure Request where
  Method : String
  Path : String
  Body : String
  deriving DecidableEq, Repr

/-- The body of a response: the JSON object of a `ReceiptResponse`, the JSON
object `{"points": n}`, or the text of `http.Error`. -/
inductive Payload where
  | id (ID : String) : Payload
  | points (n : ℤ) : Payload
  | text (msg : String) : Payload
  deriving DecidableEq, Repr

/-- The status code and the body written to the `http.ResponseWriter`. -/
structure Response where
  status : ℕ
  body : Payload
  deriving DecidableEq, Repr

/-- What the program takes from outside: the conversion of a `float64` out of
the range of `int`, the result of `json.Decoder.Decode` on a body (`none` is
an error), the numbers the random source of `uuid.New` gives, draw after
draw, and the answer of `http.ServeMux` to a request it gives to no
handler. -/
structure Env where
  oor : F64 → ℤ
  decode : String → Option Receipt
  rnd : ℕ → ℕ
  mux : Request → Response

/-- The state of the process: `receiptPointsMap` and the number of draws
made from the random source. -/
structure Server where
  receiptPointsMap : Store
  draws : ℕ
  deriving DecidableEq, Repr

/-- Go `uniqueReceiptUUID`: the loop draws a UUID until one is not a key of
the map.  `fuel` bounds the number of draws; `none` is a loop that has not
returned within it.  The result is the identifier and the number of draws
made so far. -/
def uniqueReceiptUUID (env : Env) (receiptPointsMap : Store) : ℕ → ℕ → Option (String × ℕ)
  | 0, _ => none
  | fuel + 1, draws =>
    let newUUID := uuidString (uuidNew (env.rnd draws))
    if mapGet receiptPointsMap newUUID = none then some (newUUID, draws + 1)
    else uniqueReceiptUUID env receiptPointsMap fuel (draws + 1)

/-- The handler of `/receipts/process` in Go `main`.  The encoder of the
response writes to the connection and is taken not to fail. -/
def processHandler (env : Env) (fuel : ℕ) (s : Server) (r : Request) :
    Option (Response × Server) :=
  if r.Method = "POST" then
    match env.decode r.Body with
    | none => some (⟨400, Payload.text "Failed to parse receipt JSON"⟩, s)
    | some receipt =>
      match uniqueReceiptUUID env s.receiptPointsMap fuel s.draws with
      | none => none
      | some (receiptID, draws) =>
        let totalPoints := calculateTotalPoints env.oor receipt
        some (⟨200, Payload.id receiptID⟩,
          ⟨mapSet s.receiptPointsMap receiptID totalPoints, draws⟩)
  else some (⟨405, Payload.text "Method Not Allowed"⟩, s)

/-- The handler of `/receipts/` in Go `main`; it leaves the state as it is.
The two indexings are in range when the guard has let them through. -/
def pointsHandler (s : Server) (r : Request) : Response :=
  if r.Method = "GET" then
    let parts := Split r.Path
    if parts.length < 4 ∨ parts.getD (parts.length - 1) "" ≠ "points" then
      ⟨400, Payload.text "Invalid path or method"⟩
    else
      let receiptID := parts.getD (parts.length - 2) ""
      match mapGet s.receiptPointsMap receiptID with
      | none => ⟨404, Payload.text "Receipt not found"⟩
      | some points => ⟨200, Payload.points points⟩
  else ⟨405, Payload.text "Method Not Allowed"⟩

/-- Where `http.ServeMux` sends a request: to the handler of
`/receipts/process`, to the handler of `/receipts/`, or to neither. -/
inductive Route where
  | process : Route
  | points : Route
  | mux : Route
  deriving DecidableEq, Repr

/-- One request served: the response and the state after it. -/
def serve (env : Env) (fuel : ℕ) (s : Server) (route : Route) (r : Request) :
    Option (Response × Server) :=
  match route with
  | Route.process => processHandler env fuel s r
  | Route.points => some (pointsHandler s r, s)
  | Route.mux => some (env.mux r, s)

/-- A sequence of requests served one at a time: the responses and the state
at the end; `none` if a loop of `uniqueReceiptUUID` has not returned within
`fuel`. -/
def run (env : Env) (fuel : ℕ) : Server → List (Route × Request) →
    Option (List Response × Server)
  | s, [] => some ([], s)
  | s, (route, r) :: rest =>
    match serve env fuel s route r with
    | none => none
    | some (resp, s1) =>
      match run env fuel s1 rest with
      | none => none
      | some (resps, s2) => some (resp :: resps, s2)

/-- An environment for worked examples: a conversion out of range gives 0,
every body decodes to one receipt, the random source gives 0, 1, 2 and so
on, and the multiplexer answers 404. -/
def exampleEnv : Env :=
  ⟨fun _ => 0, fun _ => some ⟨"Target", "2022-01-01", "13:01", [], "35.35"⟩, fun i => i,
    fun _ => ⟨404, Payload.text "404 page not found"⟩⟩

/-! ## Lemmas: Go `int` -/

theorem wrap64_of_range (x : ℤ) (h1 : -(2 : ℤ) ^ 63 ≤ x) (h2 : x < (2 : ℤ) ^ 63) :
    wrap64 x = x := by
  unfold wrap64; omega

theorem wrap64_add_left (x y : ℤ) : wrap64 (wrap64 x + y) = wrap64 (x + y) := by
  unfold wrap64; omega

theorem wrap64_range (x : ℤ) : -(2 : ℤ) ^ 63 ≤ wrap64 x ∧ wrap64 x < (2 : ℤ) ^ 63 := by
  unfold wrap64; omega

/-! ## Lemmas: strings -/

theorem isAlnum_val_le (c : Char) (h : isAlnum c = true) : c.val.toNat ≤ 122 := by
  simp only [isAlnum, Bool.or_eq_true, Bool.and_eq_true, decide_eq_true_eq] at h
  have e1 : ∀ a b : Char, a ≤ b ↔ a.val.toNat ≤ b.val.toNat := fun a b => Iff.rfl
  simp only [e1] at h
  have hz : ('z' : Char).val.toNat = 122 := by decide
  have hZ : ('Z' : Char).val.toNat = 90 := by decide
  have h9 : ('9' : Char).val.toNat = 57 := by decide
  omega

theorem utf8Size_of_isAlnum (c : Char) (h : isAlnum c = true) : c.utf8Size = 1 := by
  have h1 := isAlnum_val_le c h
  unfold Char.utf8Size
  have h2 : c.val ≤ 127 := by
    show c.val.toNat ≤ 127
    omega
  simp [h2]

theorem utf8ByteSize_of_all_alnum (l : List Char) (h : ∀ c ∈ l, isAlnum c = true) :
    (String.mk l).utf8ByteSize = l.length := by
  induction l with
  | nil => rfl
  | cons a t ih =>
    have ht : ∀ c ∈ t, isAlnum c = true := fun c hc => h c (List.mem_cons_of_mem _ hc)
    have ha := utf8Size_of_isAlnum a (h a (List.mem_cons_self _ _))
    have h3 := ih ht
    simp only [String.utf8ByteSize, String.utf8ByteSize.go, List.length_cons] at *
    omega

theorem pointsForRetailerName_eq_length (s : String) :
    pointsForRetailerName s = ((s.data.filter isAlnum).length : ℤ) := by
  unfold pointsForRetailerName stripNonAlnum len
  have h := utf8ByteSize_of_all_alnum (s.data.filter isAlnum)
    (fun c hc => (List.mem_filter.mp hc).2)
  simp only [h]

/-! ## Lemmas: `time.Parse` -/

theorem digitVal_le (c : Char) (h : isDigit c = true) : digitVal c ≤ 9 := by
  simp only [isDigit, Bool.and_eq_true, decide_eq_true_eq] at h
  have e1 : ∀ a b : Char, a ≤ b ↔ a.val.toNat ≤ b.val.toNat := fun a b => Iff.rfl
  simp only [e1] at h
  have h9 : ('9' : Char).val.toNat = 57 := by decide
  have h0 : ('0' : Char).toNat = 48 := by decide
  unfold digitVal
  have : c.toNat = c.val.toNat := rfl
  omega

theorem getnum_range (s : List Char) (fixed : Bool) (n : ℤ) (rest : List Char)
    (h : getnum s fixed = some (n, rest)) : 0 ≤ n ∧ n ≤ 99 := by
  unfold getnum at h
  split at h
  · simp at h
  · rename_i a r
    by_cases ha : isDigit a = true
    · have hda := digitVal_le a ha
      simp only [ha, Bool.not_true, Bool.false_eq_true, ↓reduceIte] at h
      split at h
      · rename_i b r2
        by_cases hb : isDigit b = true
        · have hdb := digitVal_le b hb
          simp only [hb, ↓reduceIte, Option.some.injEq, Prod.mk.injEq] at h
          omega
        · simp only [hb, Bool.false_eq_true, ↓reduceIte] at h
          split at h
          · simp at h
          · simp only [Option.some.injEq, Prod.mk.injEq] at h
            omega
      · split at h
        · simp at h
        · simp only [Option.some.injEq, Prod.mk.injEq] at h
          omega
    · simp [ha] at h

theorem parseClock_range (s : String) (t : Time) (h : parseClock s = some t) :
    0 ≤ t.hour ∧ t.hour < 24 ∧ 0 ≤ t.min ∧ t.min < 60 := by
  unfold parseClock at h
  split at h
  · simp at h
  · rename_i hour v1 _
    split at h
    · simp at h
    · rename_i hh
      split at h
      · rename_i v2
        split at h
        · simp at h
        · rename_i mn v3 _
          split at h
          · simp at h
          · rename_i hm
            split at h
            · simp at h
            · simp only [Option.some.injEq] at h
              subst h
              simp only
              omega
      · simp at h

theorem parseDate_valid (s : String) (t : Time) (h : parseDate s = some t) :
    1 ≤ t.month ∧ t.month ≤ 12 ∧ 1 ≤ t.day ∧ t.day ≤ daysIn t.month t.year := by
  unfold parseDate at h
  split at h
  · rename_i y1 y2 y3 y4 v1 _
    split at h
    · simp at h
    · split at h
      · rename_i v2
        split at h
        · simp at h
        · rename_i month v3 _
          split at h
          · simp at h
          · rename_i hm
            split at h
            · rename_i v4
              split at h
              · simp at h
              · rename_i day v5 _
                split at h
                · simp at h
                · simp only at h
                  split at h
                  · simp at h
                  · rename_i hd
                    simp only [Option.some.injEq] at h
                    subst h
                    simp only
                    omega
            · simp at h
      · simp at h
  · simp at h

/-! ## Claims on the retailer, the item count, the time and the date -/

/-- C7: `pointsForRetailerName` returns the number of characters of the
retailer name in the class `[a-zA-Z0-9]`; the result lies between 0 and the
number of characters of the name; a character outside the class adds nothing
wherever it stands; and `"M&M Corner Market"` scores 14. -/
theorem pointsForRetailerName_counts_alnum :
    (∀ s : String, pointsForRetailerName s = (s.data.countP isAlnum : ℤ) ∧
      0 ≤ pointsForRetailerName s ∧ pointsForRetailerName s ≤ (s.length : ℤ)) ∧
    (∀ (l1 l2 : List Char) (c : Char), isAlnum c = false →
      pointsForRetailerName ⟨l1 ++ c :: l2⟩ = pointsForRetailerName ⟨l1 ++ l2⟩) ∧
    pointsForRetailerName "M&M Corner Market" = 14 := by
  refine ⟨fun s => ⟨?_, ?_, ?_⟩, ?_, ?_⟩
  · rw [pointsForRetailerName_eq_length, List.countP_eq_length_filter]
  · rw [pointsForRetailerName_eq_length]
    exact Int.natCast_nonneg _
  · rw [pointsForRetailerName_eq_length]
    have h := List.length_filter_le isAlnum s.data
    show ((List.filter isAlnum s.data).length : ℤ) ≤ (s.data.length : ℤ)
    exact_mod_cast h
  · intro l1 l2 c hc
    rw [pointsForRetailerName_eq_length, pointsForRetailerName_eq_length]
    simp [List.filter_cons, hc]
  · rw [pointsForRetailerName_eq_length]
    decide

/-- Witness for C7: the space of `"a b"` is outside the class and adds
nothing. -/
theorem pointsForRetailerName_counts_alnum_witness :
    pointsForRetailerName ⟨['a'] ++ ' ' :: ['b']⟩ = pointsForRetailerName ⟨['a'] ++ ['b']⟩ :=
  pointsForRetailerName_counts_alnum.2.1 ['a'] ['b'] ' ' (by decide)

/-- C9: for an item list of length `n`, the empty list included,
`pointsPerTwoItems` returns `5 * floor(n / 2)`, whatever the items are: two
lists of one length score the same, 4 items give 10, 1 item gives 0 and 5
items give 10. -/
theorem pointsPerTwoItems_eq :
    (∀ items : List Item, pointsPerTwoItems items = 5 * ((items.length / 2 : ℕ) : ℤ)) ∧
    (∀ items items2 : List Item, items.length = items2.length →
      pointsPerTwoItems items = pointsPerTwoItems items2) ∧
    pointsPerTwoItems [] = 0 ∧
    (∀ a b c d : Item, pointsPerTwoItems [a, b, c, d] = 10) ∧
    (∀ a : Item, pointsPerTwoItems [a] = 0) ∧
    (∀ a b c d e : Item, pointsPerTwoItems [a, b, c, d, e] = 10) := by
  refine ⟨fun items => ?_, fun items items2 h => ?_, ?_, ?_, ?_, ?_⟩
  · unfold pointsPerTwoItems
    push_cast
    ring
  · unfold pointsPerTwoItems
    rw [h]
  · decide
  · intro a b c d; simp [pointsPerTwoItems]
  · intro a; simp [pointsPerTwoItems]
  · intro a b c d e
    simp only [pointsPerTwoItems, List.length_cons, List.length_nil]
    decide

/-- Witness for C9: two one-item lists with different contents. -/
theorem pointsPerTwoItems_eq_witness :
    pointsPerTwoItems [⟨"a", "1"⟩] = pointsPerTwoItems [⟨"Gatorade", "2.25"⟩] :=
  pointsPerTwoItems_eq.2.1 _ _ rfl

/-- C3: when `time.Parse("15:04", s)` succeeds with hour `h` and minute `m`,
`pointsForPurchaseTime s` is 10 if `14*60 < 60*h + m < 16*60` and 0
otherwise; `"14:01"` and `"15:59"` give 10, `"14:00"` and `"16:00"` give 0,
and so does every minute of hour 15. -/
theorem pointsForPurchaseTime_window :
    (∀ (s : String) (t : Time), parseClock s = some t →
      pointsForPurchaseTime s =
        if 14 * 60 < 60 * t.hour + t.min ∧ 60 * t.hour + t.min < 16 * 60 then 10 else 0) ∧
    (∀ (s : String) (t : Time), parseClock s = some t → t.hour = 15 →
      pointsForPurchaseTime s = 10) ∧
    pointsForPurchaseTime "14:01" = 10 ∧ pointsForPurchaseTime "15:59" = 10 ∧
    pointsForPurchaseTime "14:00" = 0 ∧ pointsForPurchaseTime "16:00" = 0 := by
  refine ⟨fun s t h => ?_, fun s t h h15 => ?_, by decide, by decide, by decide, by decide⟩
  · have hr := parseClock_range s t h
    unfold pointsForPurchaseTime
    rw [h]
    simp only [Time.Hour, Time.Minute]
    by_cases hc : (t.hour > 14 ∧ t.hour < 16) ∨ (t.hour = 14 ∧ t.min > 0)
    · rw [if_pos hc, if_pos (by omega)]
    · rw [if_neg hc, if_neg (by omega)]
  · unfold pointsForPurchaseTime
    rw [h]
    simp only [Time.Hour, Time.Minute]
    rw [if_pos (by omega)]

/-- Witness for C3: `"15:30"` parses to 15 h 30 min and scores 10. -/
theorem pointsForPurchaseTime_window_witness :
    pointsForPurchaseTime "15:30" =
      if 14 * 60 < 60 * (15 : ℤ) + 30 ∧ 60 * (15 : ℤ) + 30 < 16 * 60 then 10 else 0 :=
  pointsForPurchaseTime_window.1 "15:30" ⟨0, 1, 1, 15, 30⟩ (by decide)

/-- C8: when `time.Parse("2006-01-02", s)` succeeds, the month and the day
it returns are those of a date of the calendar, and `pointsForOddDay s` is 6
if the day of the month is odd and 0 if it is even; `"2022-01-01"` gives 6
and `"2022-01-02"` gives 0. -/
theorem pointsForOddDay_parity :
    (∀ (s : String) (t : Time), parseDate s = some t →
      (1 ≤ t.month ∧ t.month ≤ 12 ∧ 1 ≤ t.day ∧ t.day ≤ daysIn t.month t.year) ∧
      pointsForOddDay s = if t.day % 2 = 1 then 6 else 0) ∧
    pointsForOddDay "2022-01-01" = 6 ∧ pointsForOddDay "2022-01-02" = 0 := by
  refine ⟨fun s t h => ⟨?_, ?_⟩, by decide, by decide⟩
  · exact parseDate_valid s t h
  · unfold pointsForOddDay
    rw [h]
    simp only [Time.Day]
    by_cases hc : t.day % 2 = 1
    · rw [if_pos hc, if_pos (by omega)]
    · rw [if_neg hc, if_neg (by omega)]

/-- Witness for C8: `"2024-02-29"` is a date, of day 29. -/
theorem pointsForOddDay_parity_witness :
    pointsForOddDay "2024-02-29" = if (29 : ℤ) % 2 = 1 then 6 else 0 :=
  (pointsForOddDay_parity.1 "2024-02-29" ⟨2024, 2, 29, 0, 0⟩ (by decide)).2

/-! ## Lemmas: `float64` -/

theorem c0_25_eq : c0_25 = F64.fin (1 / 4) := by decide!

theorem c0_2_eq : c0_2 = F64.fin (3602879701896397 / 18014398509481984) := by decide!

theorem truncQ_intCast (k : ℤ) : truncQ (k : ℚ) = k := by
  unfold truncQ
  split <;> simp

theorem mod_quarter_eq_zero_iff (v : ℚ) :
    v - 1 / 4 * ((truncQ (v / (1 / 4)) : ℤ) : ℚ) = 0 ↔ ∃ k : ℤ, v = (k : ℚ) * (1 / 4) := by
  constructor
  · intro h
    exact ⟨truncQ (v / (1 / 4)), by linarith⟩
  · rintro ⟨k, hk⟩
    have h1 : v / (1 / 4) = (k : ℚ) := by rw [hk]; field_simp
    rw [h1, truncQ_intCast, hk]
    ring

theorem quarterRule_fin (s : String) (v : ℚ) (h : ParseFloat s = .ok (F64.fin v)) :
    pointsForReceiptTotalMultipleOfQuarter s =
      if v - 1 / 4 * ((truncQ (v / (1 / 4)) : ℤ) : ℚ) = 0 ∧ v ≠ 0 then 25 else 0 := by
  unfold pointsForReceiptTotalMultipleOfQuarter
  rw [h]
  have h4 : (1 / 4 : ℚ) ≠ 0 := by norm_num
  simp only [c0_25_eq, c0, F64.Mod, F64.eq, F64.ne, h4, ↓reduceIte, Bool.and_eq_true,
    decide_eq_true_eq, Bool.not_eq_true', decide_eq_false_iff_not]

theorem roundRule_fin (s : String) (v : ℚ) (h : ParseFloat s = .ok (F64.fin v)) :
    pointsForReceiptTotal s = if v = ((⌊v⌋ : ℤ) : ℚ) then 50 else 0 := by
  unfold pointsForReceiptTotal
  rw [h]
  simp only [F64.Floor, F64.eq, decide_eq_true_eq]

/-- C5: when `ParseFloat` returns the finite value `v` for the total,
`pointsForReceiptTotalMultipleOfQuarter` returns 25 exactly when `v` is not
zero and is an integer multiple of 0.25, and 0 otherwise; on an infinity or
a NaN it returns 0; `"35.00"`, `"9.00"` and `"1.25"` give 25, and `"1.01"`,
`"0"` and `"0.00"` give 0. -/
theorem pointsForReceiptTotalMultipleOfQuarter_spec :
    (∀ (s : String) (v : ℚ), ParseFloat s = .ok (F64.fin v) →
      (pointsForReceiptTotalMultipleOfQuarter s = 25 ↔
        v ≠ 0 ∧ ∃ k : ℤ, v = (k : ℚ) * (1 / 4)) ∧
      (pointsForReceiptTotalMultipleOfQuarter s = 25 ∨
        pointsForReceiptTotalMultipleOfQuarter s = 0)) ∧
    (∀ (s : String) (b : Bool), ParseFloat s = .ok (F64.inf b) →
      pointsForReceiptTotalMultipleOfQuarter s = 0) ∧
    (∀ s : String, ParseFloat s = .ok F64.nan →
      pointsForReceiptTotalMultipleOfQuarter s = 0) ∧
    pointsForReceiptTotalMultipleOfQuarter "35.00" = 25 ∧
    pointsForReceiptTotalMultipleOfQuarter "9.00" = 25 ∧
    pointsForReceiptTotalMultipleOfQuarter "1.25" = 25 ∧
    pointsForReceiptTotalMultipleOfQuarter "1.01" = 0 ∧
    pointsForReceiptTotalMultipleOfQuarter "0" = 0 ∧
    pointsForReceiptTotalMultipleOfQuarter "0.00" = 0 := by
  refine ⟨fun s v h => ?_, fun s b h => ?_, fun s h => ?_, by decide!, by decide!, by decide!,
    by decide!, by decide!, by decide!⟩
  · rw [quarterRule_fin s v h]
    by_cases hc : v - 1 / 4 * ((truncQ (v / (1 / 4)) : ℤ) : ℚ) = 0 ∧ v ≠ 0
    · rw [if_pos hc]
      exact ⟨⟨fun _ => ⟨hc.2, (mod_quarter_eq_zero_iff v).mp hc.1⟩, fun _ => rfl⟩, Or.inl rfl⟩
    · rw [if_neg hc]
      refine ⟨⟨fun h0 => absurd h0 (by decide), fun h1 => ?_⟩, Or.inr rfl⟩
      exact absurd ⟨(mod_quarter_eq_zero_iff v).mpr h1.2, h1.1⟩ hc
  · unfold pointsForReceiptTotalMultipleOfQuarter
    rw [h]
    simp [c0_25_eq, c0, F64.Mod, F64.eq]
  · unfold pointsForReceiptTotalMultipleOfQuarter
    rw [h]
    simp [F64.Mod, F64.eq]

/-- Witness for C5: `"1.25"` parses to 5/4, which is 5 times 0.25. -/
theorem pointsForReceiptTotalMultipleOfQuarter_spec_witness :
    pointsForReceiptTotalMultipleOfQuarter "1.25" = 25 ↔
      (5 / 4 : ℚ) ≠ 0 ∧ ∃ k : ℤ, (5 / 4 : ℚ) = (k : ℚ) * (1 / 4) :=
  (pointsForReceiptTotalMultipleOfQuarter_spec.1 "1.25" (5 / 4) (by decide!)).1

/-- C6: when `ParseFloat` returns the finite value `v` for the total,
`pointsForReceiptTotal` returns 50 exactly when `v` has no fractional part,
that is when `v` equals its floor, and 0 otherwise; `"35.00"` and `"9.00"`
give 50, `"1.25"` and `"1.01"` give 0.  An infinity equals its floor and
gives 50; a NaN gives 0. -/
theorem pointsForReceiptTotal_spec :
    (∀ (s : String) (v : ℚ), ParseFloat s = .ok (F64.fin v) →
      (pointsForReceiptTotal s = 50 ↔ Int.fract v = 0) ∧
      (Int.fract v = 0 ↔ ∃ k : ℤ, v = (k : ℚ)) ∧
      (pointsForReceiptTotal s = 50 ∨ pointsForReceiptTotal s = 0)) ∧
    (∀ (s : String) (b : Bool), ParseFloat s = .ok (F64.inf b) →
      pointsForReceiptTotal s = 50) ∧
    (∀ s : String, ParseFloat s = .ok F64.nan → pointsForReceiptTotal s = 0) ∧
    pointsForReceiptTotal "35.00" = 50 ∧ pointsForReceiptTotal "9.00" = 50 ∧
    pointsForReceiptTotal "1.25" = 0 ∧ pointsForReceiptTotal "1.01" = 0 := by
  refine ⟨fun s v h => ⟨?_, ?_, ?_⟩, fun s b h => ?_, fun s h => ?_, by decide!, by decide!,
    by decide!, by decide!⟩
  · rw [roundRule_fin s v h]
    have hf : Int.fract v = 0 ↔ v = ((⌊v⌋ : ℤ) : ℚ) := by
      unfold Int.fract
      constructor <;> intro h1 <;> linarith
    by_cases hc : v = ((⌊v⌋ : ℤ) : ℚ)
    · rw [if_pos hc]
      exact ⟨fun _ => hf.mpr hc, fun _ => rfl⟩
    · rw [if_neg hc]
      exact ⟨fun h0 => absurd h0 (by decide), fun h1 => absurd (hf.mp h1) hc⟩
  · constructor
    · intro h1
      refine ⟨⌊v⌋, ?_⟩
      unfold Int.fract at h1
      linarith
    · rintro ⟨k, hk⟩
      rw [hk]
      exact Int.fract_intCast k
  · rw [roundRule_fin s v h]
    by_cases hc : v = ((⌊v⌋ : ℤ) : ℚ)
    · exact Or.inl (if_pos hc)
    · exact Or.inr (if_neg hc)
  · unfold pointsForReceiptTotal
    rw [h]
    simp [F64.Floor, F64.eq]
  · unfold pointsForReceiptTotal
    rw [h]
    simp [F64.Floor, F64.eq]

/-- Witness for C6: `"9.00"` parses to 9, which has no fractional part. -/
theorem pointsForReceiptTotal_spec_witness :
    pointsForReceiptTotal "9.00" = 50 ↔ Int.fract (9 : ℚ) = 0 :=
  (pointsForReceiptTotal_spec.1 "9.00" 9 (by decide!)).1

/-! ## Lemmas: the description rule -/

theorem toInt_intCast (oor : F64 → ℤ) (k : ℤ) (h1 : -(2 : ℤ) ^ 63 ≤ k) (h2 : k < (2 : ℤ) ^ 63) :
    F64.toInt oor (F64.fin (k : ℚ)) = k := by
  simp only [F64.toInt, truncQ_intCast]
  rw [if_pos ⟨h1, h2⟩]

theorem mul_c0_2 (v : ℚ) :
    F64.mul (F64.fin v) c0_2 = F64.ofRat (v * (3602879701896397 / 18014398509481984)) := by
  rw [c0_2_eq]
  rfl

theorem pointsForShortDescription_fin (oor : F64 → ℤ) (item : Item) (v : ℚ)
    (h : ParseFloat item.Price = .ok (F64.fin v)) :
    pointsForShortDescription oor item =
      if 3 ∣ (TrimSpace item.ShortDescription).utf8ByteSize ∧
          (TrimSpace item.ShortDescription).utf8ByteSize ≠ 0 then
        F64.toInt oor (F64.Ceil (F64.ofRat (v * (3602879701896397 / 18014398509481984))))
      else 0 := by
  unfold pointsForShortDescription
  rw [h]
  simp only [mul_c0_2, len]
  by_cases hc : 3 ∣ (TrimSpace item.ShortDescription).utf8ByteSize ∧
      (TrimSpace item.ShortDescription).utf8ByteSize ≠ 0
  · rw [if_pos hc, if_pos]
    constructor
    · have := hc.1
      omega
    · have := hc.2
      omega
  · rw [if_neg hc, if_neg]
    intro h1
    apply hc
    constructor
    · have := h1.1
      omega
    · have := h1.2
      omega

theorem foldl_addInt_wrap (g : Item → ℤ) (l : List Item) (a : ℤ) :
    wrap64 (l.foldl (fun res item => addInt res (g item)) a) =
      wrap64 (a + (l.map g).sum) := by
  induction l generalizing a with
  | nil => simp
  | cons x t ih =>
    simp only [List.foldl_cons, List.map_cons, List.sum_cons]
    rw [ih, addInt, wrap64_add_left, add_assoc]

theorem foldl_addInt_range (g : Item → ℤ) (l : List Item) (a : ℤ)
    (h : wrap64 a = a) :
    wrap64 (l.foldl (fun res item => addInt res (g item)) a) =
      l.foldl (fun res item => addInt res (g item)) a := by
  induction l generalizing a with
  | nil => simpa using h
  | cons x t ih =>
    simp only [List.foldl_cons]
    apply ih
    unfold addInt
    have := wrap64_range (a + g x)
    exact wrap64_of_range _ this.1 this.2

theorem totalPointsForShortDescription_eq (oor : F64 → ℤ) (items : List Item) :
    totalPointsForShortDescription oor items =
      wrap64 ((items.map (pointsForShortDescription oor)).sum) := by
  unfold totalPointsForShortDescription
  rw [← foldl_addInt_range (pointsForShortDescription oor) items 0 (by decide),
    foldl_addInt_wrap, zero_add]

theorem trimSpace_decomp (s : String) :
    ∃ pre post : List Char, s.data = pre ++ (TrimSpace s).data ++ post ∧
      (∀ c ∈ pre, isSpace c = true) ∧ (∀ c ∈ post, isSpace c = true) ∧
      (∀ c, (TrimSpace s).data.head? = some c → isSpace c = false) ∧
      (∀ c, (TrimSpace s).data.getLast? = some c → isSpace c = false) := by
  have hm := List.takeWhile_append_dropWhile isSpace s.data
  have hr := List.takeWhile_append_dropWhile isSpace (s.data.dropWhile isSpace).reverse
  have hm2 : s.data.dropWhile isSpace =
      ((s.data.dropWhile isSpace).reverse.dropWhile isSpace).reverse ++
        ((s.data.dropWhile isSpace).reverse.takeWhile isSpace).reverse := by
    rw [← List.reverse_append, hr, List.reverse_reverse]
  refine ⟨s.data.takeWhile isSpace,
    ((s.data.dropWhile isSpace).reverse.takeWhile isSpace).reverse, ?_, ?_, ?_, ?_, ?_⟩
  · show s.data = _ ++ ((s.data.dropWhile isSpace).reverse.dropWhile isSpace).reverse ++ _
    rw [List.append_assoc, ← hm2, hm]
  · intro c hc
    exact List.mem_takeWhile_imp hc
  · intro c hc
    exact List.mem_takeWhile_imp (List.mem_reverse.mp hc)
  · intro c hc
    have hc1 : (((s.data.dropWhile isSpace).reverse.dropWhile isSpace).reverse).head? = some c := hc
    have h1 : (s.data.dropWhile isSpace).head? = some c := by
      rw [hm2, List.head?_append, hc1]
      rfl
    have h2 := List.head?_dropWhile_not isSpace s.data
    rw [h1] at h2
    exact h2
  · intro c hc
    have hc1 : (((s.data.dropWhile isSpace).reverse.dropWhile isSpace).reverse).getLast? = some c :=
      hc
    rw [List.getLast?_reverse] at hc1
    have h2 := List.head?_dropWhile_not isSpace (s.data.dropWhile isSpace).reverse
    rw [hc1] at h2
    exact h2

theorem utf8ByteSize_of_ascii (l : List Char) (h : ∀ c ∈ l, c.toNat < 128) :
    (String.mk l).utf8ByteSize = l.length := by
  induction l with
  | nil => rfl
  | cons a t ih =>
    have ht : ∀ c ∈ t, c.toNat < 128 := fun c hc => h c (List.mem_cons_of_mem _ hc)
    have ha : a.utf8Size = 1 := by
      have h1 := h a (List.mem_cons_self _ _)
      unfold Char.utf8Size
      have h2 : a.val ≤ 127 := by
        show a.val.toNat ≤ 127
        have : a.toNat = a.val.toNat := rfl
        omega
      simp [h2]
    have h3 := ih ht
    simp only [String.utf8ByteSize, String.utf8ByteSize.go, List.length_cons] at *
    omega

theorem ceil_product_12_25 :
    F64.Ceil (F64.ofRat ((49 / 4 : ℚ) * (3602879701896397 / 18014398509481984))) =
      F64.fin ((3 : ℤ) : ℚ) := by decide!

theorem ceil_product_neg_100 :
    F64.Ceil (F64.ofRat ((-100 : ℚ) * (3602879701896397 / 18014398509481984))) =
      F64.fin ((-20 : ℤ) : ℚ) := by decide!

theorem calculateTotalPoints_eq_wrap (oor : F64 → ℤ) (r : Receipt) :
    calculateTotalPoints oor r =
      wrap64 (pointsForPurchaseTime r.PurchaseTime + pointsForOddDay r.PurchaseDate +
        totalPointsForShortDescription oor r.Items + pointsPerTwoItems r.Items +
        pointsForReceiptTotalMultipleOfQuarter r.Total + pointsForRetailerName r.Retailer +
        pointsForReceiptTotal r.Total) := by
  unfold calculateTotalPoints addInt
  simp only [wrap64_add_left]

/-- C4, as the code has it: when `ParseFloat` returns the finite value `v`
for the price, `pointsForShortDescription` returns `int(math.Ceil(v * 0.2))`
if the number of UTF-8 bytes of the trimmed description is a non-zero
multiple of 3, and 0 otherwise.  The product is the `float64` nearest to `v`
times 3602879701896397 / 2^54, the `float64` nearest to 0.2.  The conversion
to `int` is the ceiling itself when that lies in the range of `int`.  The trimmed
description is the description without a leading and a trailing run of white
space.  For a description of ASCII characters the number of bytes is the
number of characters.  `totalPointsForShortDescription` is the sum of the
items' values in 64-bit arithmetic.  `"Emils Cheese Pizza"` at `"12.25"`
gives 3 and `"Gatorade"` gives 0 at every price. -/
theorem pointsForShortDescription_spec :
    (∀ (oor : F64 → ℤ) (item : Item) (v : ℚ), ParseFloat item.Price = .ok (F64.fin v) →
      pointsForShortDescription oor item =
        if 3 ∣ (TrimSpace item.ShortDescription).utf8ByteSize ∧
            (TrimSpace item.ShortDescription).utf8ByteSize ≠ 0 then
          F64.toInt oor (F64.Ceil (F64.mul (F64.fin v) (F64.ofRat (2 / 10))))
        else 0) ∧
    (∀ v : ℚ, F64.mul (F64.fin v) (F64.ofRat (2 / 10)) =
      F64.ofRat (v * (3602879701896397 / 18014398509481984))) ∧
    (∀ (oor : F64 → ℤ) (w : ℚ), -(2 : ℤ) ^ 63 ≤ ⌈w⌉ → ⌈w⌉ < (2 : ℤ) ^ 63 →
      F64.toInt oor (F64.Ceil (F64.fin w)) = ⌈w⌉) ∧
    (∀ s : String, ∃ pre post : List Char, s.data = pre ++ (TrimSpace s).data ++ post ∧
      (∀ c ∈ pre, isSpace c = true) ∧ (∀ c ∈ post, isSpace c = true) ∧
      (∀ c, (TrimSpace s).data.head? = some c → isSpace c = false) ∧
      (∀ c, (TrimSpace s).data.getLast? = some c → isSpace c = false)) ∧
    (∀ s : String, (∀ c ∈ s.data, c.toNat < 128) → s.utf8ByteSize = s.length) ∧
    (∀ (oor : F64 → ℤ) (items : List Item), totalPointsForShortDescription oor items =
      wrap64 ((items.map (pointsForShortDescription oor)).sum)) ∧
    (∀ oor : F64 → ℤ, pointsForShortDescription oor ⟨"Emils Cheese Pizza", "12.25"⟩ = 3) ∧
    (∀ (oor : F64 → ℤ) (price : String),
      pointsForShortDescription oor ⟨"Gatorade", price⟩ = 0) := by
  refine ⟨fun oor item v h => ?_, mul_c0_2, fun oor w h1 h2 => ?_, trimSpace_decomp,
    fun s h => ?_, totalPointsForShortDescription_eq, fun oor => ?_, fun oor price => ?_⟩
  · rw [pointsForShortDescription_fin oor item v h, ← mul_c0_2]
    rfl
  · exact toInt_intCast oor ⌈w⌉ h1 h2
  · exact utf8ByteSize_of_ascii s.data h
  · have hp : ParseFloat (Item.mk "Emils Cheese Pizza" "12.25").Price =
        .ok (F64.fin (49 / 4)) := by decide!
    rw [pointsForShortDescription_fin oor _ _ hp, if_pos (by decide), ceil_product_12_25]
    exact toInt_intCast oor 3 (by decide) (by decide)
  · unfold pointsForShortDescription
    have hl : ¬ (len (TrimSpace "Gatorade") % 3 = 0 ∧ len (TrimSpace "Gatorade") ≠ 0) := by
      decide
    split
    · rfl
    · exact if_neg hl

/-- Witness for C4: the item `"Emils Cheese Pizza"` at `"12.25"`, whose price
parses to 49/4. -/
theorem pointsForShortDescription_spec_witness :
    pointsForShortDescription (fun _ => 0) ⟨"Emils Cheese Pizza", "12.25"⟩ =
      if 3 ∣ (TrimSpace "Emils Cheese Pizza").utf8ByteSize ∧
          (TrimSpace "Emils Cheese Pizza").utf8ByteSize ≠ 0 then
        F64.toInt (fun _ => 0) (F64.Ceil (F64.mul (F64.fin (49 / 4)) (F64.ofRat (2 / 10))))
      else 0 :=
  pointsForShortDescription_spec.1 (fun _ => 0) ⟨"Emils Cheese Pizza", "12.25"⟩ (49 / 4)
    (by decide!)

/-- C4 fails as stated: the description `"éa"` has 2 characters, which is
not a multiple of 3, so the claim gives 0 points; it has 3 bytes, and at the
price `"12.25"` the code gives 3 points, on every platform. -/
theorem pointsForShortDescription_counts_bytes :
    (TrimSpace "éa").length = 2 ∧ (TrimSpace "éa").utf8ByteSize = 3 ∧
    ParseFloat "12.25" = .ok (F64.fin (49 / 4)) ∧
    (fun oor : F64 → ℤ => pointsForShortDescription oor ⟨"éa", "12.25"⟩) =
      fun _ => 3 := by
  refine ⟨by decide, by decide, by decide!, ?_⟩
  funext oor
  have hp : ParseFloat (Item.mk "éa" "12.25").Price = .ok (F64.fin (49 / 4)) := by decide!
  rw [pointsForShortDescription_fin oor _ _ hp, if_pos (by decide), ceil_product_12_25]
  exact toInt_intCast oor 3 (by decide) (by decide)

/-! ## Lemmas: rounding -/

theorem qpow_two_pos (e : ℤ) : 0 < qpow 2 e := by
  unfold qpow
  split
  · positivity
  · positivity

theorem roundNE_nonneg (q : ℚ) (h : 0 ≤ q) : 0 ≤ roundNE q := by
  unfold roundNE
  split
  · exact le_refl 0
  · have hu := qpow_two_pos (max (ilog2 q) (-1022) - 52)
    have hk : 0 ≤ q / qpow 2 (max (ilog2 q) (-1022) - 52) := div_nonneg h (le_of_lt hu)
    have hf : 0 ≤ ⌊q / qpow 2 (max (ilog2 q) (-1022) - 52)⌋ := Int.floor_nonneg.mpr hk
    simp only
    apply mul_nonneg _ (le_of_lt hu)
    split
    · exact_mod_cast hf
    · split
      · have : 0 ≤ ⌊q / qpow 2 (max (ilog2 q) (-1022) - 52)⌋ + 1 := by omega
        exact_mod_cast this
      · split
        · exact_mod_cast hf
        · have : 0 ≤ ⌊q / qpow 2 (max (ilog2 q) (-1022) - 52)⌋ + 1 := by omega
          exact_mod_cast this

theorem qpow_two_1024_gt : (2 : ℚ) ^ 63 < qpow 2 1024 := by
  have h : qpow 2 1024 = (2 : ℚ) ^ 1024 := by
    unfold qpow
    rw [if_pos (by decide)]
    have : Int.toNat 1024 = 1024 := rfl
    rw [this, Nat.cast_pow, Nat.cast_ofNat]
  rw [h]
  exact pow_lt_pow_right₀ (by norm_num) (by norm_num)

/-- An item's points are not negative when its price fails to parse or
parses to a finite value that is not negative and whose fifth, rounded up,
fits an `int`. -/
theorem pointsForShortDescription_nonneg (oor : F64 → ℤ) (item : Item)
    (h : ∀ x, ParseFloat item.Price = .ok x → ∃ v : ℚ, x = F64.fin v ∧ 0 ≤ v ∧
      ⌈roundNE (v * (3602879701896397 / 18014398509481984))⌉ < (2 : ℤ) ^ 63) :
    0 ≤ pointsForShortDescription oor item := by
  cases hp : ParseFloat item.Price with
  | error e =>
    unfold pointsForShortDescription
    rw [hp]
  | ok x =>
    obtain ⟨v, hx, hv, hc⟩ := h x hp
    subst hx
    rw [pointsForShortDescription_fin oor item v hp]
    split
    · have hr := roundNE_nonneg (v * (3602879701896397 / 18014398509481984))
        (mul_nonneg hv (by norm_num))
      have hle := Int.le_ceil (roundNE (v * (3602879701896397 / 18014398509481984)))
      have hlt : roundNE (v * (3602879701896397 / 18014398509481984)) < (2 : ℚ) ^ 63 := by
        have : ((⌈roundNE (v * (3602879701896397 / 18014398509481984))⌉ : ℤ) : ℚ) <
            (2 : ℚ) ^ 63 := by exact_mod_cast hc
        linarith
      have hno : overflows (roundNE (v * (3602879701896397 / 18014398509481984))) = false := by
        unfold overflows
        rw [decide_eq_false_iff_not, abs_of_nonneg hr]
        have := qpow_two_1024_gt
        push_neg
        linarith
      have hc0 : 0 ≤ ⌈roundNE (v * (3602879701896397 / 18014398509481984))⌉ :=
        Int.ceil_nonneg hr
      unfold F64.ofRat
      simp only [hno, Bool.false_eq_true, ↓reduceIte, F64.Ceil]
      rw [toInt_intCast oor _ (by omega) hc]
      exact hc0
    · exact le_refl 0

theorem list_sum_nonneg (l : List ℤ) (h : ∀ x ∈ l, 0 ≤ x) : 0 ≤ l.sum := by
  induction l with
  | nil => simp
  | cons a t ih =>
    rw [List.sum_cons]
    have h1 := h a (List.mem_cons_self _ _)
    have h2 := ih (fun x hx => h x (List.mem_cons_of_mem _ hx))
    omega

theorem pointsForReceiptTotal_nonneg (s : String) : 0 ≤ pointsForReceiptTotal s := by
  unfold pointsForReceiptTotal
  split
  · exact le_refl 0
  · split <;> decide

theorem pointsForReceiptTotalMultipleOfQuarter_nonneg (s : String) :
    0 ≤ pointsForReceiptTotalMultipleOfQuarter s := by
  unfold pointsForReceiptTotalMultipleOfQuarter
  split
  · exact le_refl 0
  · split <;> decide

theorem pointsForOddDay_nonneg (s : String) : 0 ≤ pointsForOddDay s := by
  unfold pointsForOddDay
  split
  · exact le_refl 0
  · simp only
    split <;> decide

theorem pointsForPurchaseTime_nonneg (s : String) : 0 ≤ pointsForPurchaseTime s := by
  unfold pointsForPurchaseTime
  split
  · exact le_refl 0
  · split <;> decide

theorem pointsForRetailerName_nonneg (s : String) : 0 ≤ pointsForRetailerName s := by
  rw [pointsForRetailerName_eq_length]
  exact Int.natCast_nonneg _

theorem pointsPerTwoItems_nonneg (items : List Item) : 0 ≤ pointsPerTwoItems items := by
  unfold pointsPerTwoItems
  have : (0 : ℤ) ≤ (items.length : ℤ) := Int.natCast_nonneg _
  simp only
  omega


/-! ## Claims on the total -/

/-- C1, as the code has it: `calculateTotalPoints` is total and equals the
sum, in 64-bit `int` arithmetic, of the seven contributions, each computed
from one field of the receipt: the retailer; the total, for the round-dollar
rule and for the quarter rule; the items, for the pair rule and for the
description rule; the purchase date; the purchase time.  When the sum of the
seven lies in the range of `int`, it is that sum. -/
theorem calculateTotalPoints_eq_sum :
    (∀ (oor : F64 → ℤ) (r : Receipt), calculateTotalPoints oor r =
      wrap64 (pointsForRetailerName r.Retailer + pointsForReceiptTotal r.Total +
        pointsForReceiptTotalMultipleOfQuarter r.Total + pointsPerTwoItems r.Items +
        totalPointsForShortDescription oor r.Items + pointsForOddDay r.PurchaseDate +
        pointsForPurchaseTime r.PurchaseTime)) ∧
    (∀ (oor : F64 → ℤ) (r : Receipt),
      pointsForRetailerName r.Retailer + pointsForReceiptTotal r.Total +
        pointsForReceiptTotalMultipleOfQuarter r.Total + pointsPerTwoItems r.Items +
        totalPointsForShortDescription oor r.Items + pointsForOddDay r.PurchaseDate +
        pointsForPurchaseTime r.PurchaseTime < (2 : ℤ) ^ 63 →
      calculateTotalPoints oor r =
        pointsForRetailerName r.Retailer + pointsForReceiptTotal r.Total +
        pointsForReceiptTotalMultipleOfQuarter r.Total + pointsPerTwoItems r.Items +
        totalPointsForShortDescription oor r.Items + pointsForOddDay r.PurchaseDate +
        pointsForPurchaseTime r.PurchaseTime) := by
  constructor
  · intro oor r
    rw [calculateTotalPoints_eq_wrap]
    congr 1
    ring
  · intro oor r h
    rw [calculateTotalPoints_eq_wrap]
    have h1 := pointsForRetailerName_nonneg r.Retailer
    have h2 := pointsForReceiptTotal_nonneg r.Total
    have h3 := pointsForReceiptTotalMultipleOfQuarter_nonneg r.Total
    have h4 := pointsPerTwoItems_nonneg r.Items
    have h5 := pointsForOddDay_nonneg r.PurchaseDate
    have h6 := pointsForPurchaseTime_nonneg r.PurchaseTime
    have h7 : -(2 : ℤ) ^ 63 ≤ totalPointsForShortDescription oor r.Items := by
      rw [totalPointsForShortDescription_eq]
      exact (wrap64_range _).1
    rw [wrap64_of_range _ (by omega) (by omega)]
    ring

/-- Witness for C1: a receipt with an empty item list, whose seven
contributions add up to 75. -/
theorem calculateTotalPoints_eq_sum_witness :
    calculateTotalPoints (fun _ => 0) ⟨"", "", "", [], "35.00"⟩ =
      pointsForRetailerName "" + pointsForReceiptTotal "35.00" +
        pointsForReceiptTotalMultipleOfQuarter "35.00" + pointsPerTwoItems [] +
        totalPointsForShortDescription (fun _ => 0) [] + pointsForOddDay "" +
        pointsForPurchaseTime "" :=
  calculateTotalPoints_eq_sum.2 (fun _ => 0) ⟨"", "", "", [], "35.00"⟩ (by decide!)

/-- C1 fails as stated: the round-dollar rule and the quarter rule read the
same field.  Two receipts that differ in the total alone, `"1.00"` and
`"1.10"`, differ in the contribution of each of the two rules: the quarter
rule depends on a field that another rule reads. -/
theorem total_read_by_two_rules :
    (Receipt.mk "" "" "" [] "1.00").Retailer = (Receipt.mk "" "" "" [] "1.10").Retailer ∧
    (Receipt.mk "" "" "" [] "1.00").PurchaseDate =
      (Receipt.mk "" "" "" [] "1.10").PurchaseDate ∧
    (Receipt.mk "" "" "" [] "1.00").PurchaseTime =
      (Receipt.mk "" "" "" [] "1.10").PurchaseTime ∧
    (Receipt.mk "" "" "" [] "1.00").Items = (Receipt.mk "" "" "" [] "1.10").Items ∧
    pointsForReceiptTotal (Receipt.mk "" "" "" [] "1.00").Total = 50 ∧
    pointsForReceiptTotal (Receipt.mk "" "" "" [] "1.10").Total = 0 ∧
    pointsForReceiptTotalMultipleOfQuarter (Receipt.mk "" "" "" [] "1.00").Total = 25 ∧
    pointsForReceiptTotalMultipleOfQuarter (Receipt.mk "" "" "" [] "1.10").Total = 0 := by
  refine ⟨rfl, rfl, rfl, rfl, by decide!, by decide!, by decide!, by decide!⟩

/-- C2, as the code has it: `calculateTotalPoints` is not negative for a
receipt in which the price of every item either fails to parse or parses to
a finite value `v` that is not negative and whose points `ceil(v * 0.2)` fit
an `int`, and whose seven contributions add up to less than `2^63`; the
score is then the sum of the seven contributions. -/
theorem calculateTotalPoints_nonneg (oor : F64 → ℤ) (r : Receipt)
    (hprice : ∀ item ∈ r.Items, ∀ x, ParseFloat item.Price = .ok x →
      ∃ v : ℚ, x = F64.fin v ∧ 0 ≤ v ∧
        ⌈roundNE (v * (3602879701896397 / 18014398509481984))⌉ < (2 : ℤ) ^ 63)
    (hsum : pointsForRetailerName r.Retailer + pointsForReceiptTotal r.Total +
        pointsForReceiptTotalMultipleOfQuarter r.Total + pointsPerTwoItems r.Items +
        (r.Items.map (pointsForShortDescription oor)).sum + pointsForOddDay r.PurchaseDate +
        pointsForPurchaseTime r.PurchaseTime < (2 : ℤ) ^ 63) :
    0 ≤ calculateTotalPoints oor r ∧
    calculateTotalPoints oor r =
      pointsForRetailerName r.Retailer + pointsForReceiptTotal r.Total +
        pointsForReceiptTotalMultipleOfQuarter r.Total + pointsPerTwoItems r.Items +
        (r.Items.map (pointsForShortDescription oor)).sum + pointsForOddDay r.PurchaseDate +
        pointsForPurchaseTime r.PurchaseTime := by
  have h1 := pointsForRetailerName_nonneg r.Retailer
  have h2 := pointsForReceiptTotal_nonneg r.Total
  have h3 := pointsForReceiptTotalMultipleOfQuarter_nonneg r.Total
  have h4 := pointsPerTwoItems_nonneg r.Items
  have h5 := pointsForOddDay_nonneg r.PurchaseDate
  have h6 := pointsForPurchaseTime_nonneg r.PurchaseTime
  have h7 : 0 ≤ (r.Items.map (pointsForShortDescription oor)).sum := by
    apply list_sum_nonneg
    intro x hx
    obtain ⟨item, hi, rfl⟩ := List.mem_map.mp hx
    exact pointsForShortDescription_nonneg oor item (hprice item hi)
  have h8 : totalPointsForShortDescription oor r.Items =
      (r.Items.map (pointsForShortDescription oor)).sum := by
    rw [totalPointsForShortDescription_eq]
    exact wrap64_of_range _ (by omega) (by omega)
  rw [calculateTotalPoints_eq_wrap, h8, wrap64_of_range _ (by omega) (by omega)]
  constructor
  · omega
  · ring

/-- Witness for C2: a receipt with one item, priced `"12.25"`, and a
malformed one; its score is 10. -/
theorem calculateTotalPoints_nonneg_witness :
    0 ≤ calculateTotalPoints (fun _ => 0)
      ⟨"ab", "", "", [⟨"Emils Cheese Pizza", "12.25"⟩, ⟨"abc", "x"⟩], ""⟩ :=
  (calculateTotalPoints_nonneg (fun _ => 0)
    ⟨"ab", "", "", [⟨"Emils Cheese Pizza", "12.25"⟩, ⟨"abc", "x"⟩], ""⟩
    (by
      intro item hi x hx
      simp only [List.mem_cons, List.mem_nil_iff, or_false] at hi
      rcases hi with rfl | rfl
      · have hp : ParseFloat (Item.mk "Emils Cheese Pizza" "12.25").Price =
            .ok (F64.fin (49 / 4)) := by decide!
        rw [hp] at hx
        injection hx with hx
        subst hx
        exact ⟨49 / 4, rfl, by norm_num, by decide!⟩
      · have hp : ParseFloat (Item.mk "abc" "x").Price = .error NumError.errSyn := by decide
        rw [hp] at hx
        cases hx)
    (by decide!)).1

/-- C2 fails as stated: the receipt whose only item is `"abc"` at the price
`"-100"`, every other field empty, scores -20 on every platform. -/
theorem calculateTotalPoints_negative :
    (fun oor : F64 → ℤ => calculateTotalPoints oor ⟨"", "", "", [⟨"abc", "-100"⟩], ""⟩) =
      fun _ => -20 := by
  funext oor
  have hp : ParseFloat (Item.mk "abc" "-100").Price = .ok (F64.fin (-100)) := by decide!
  have hi : pointsForShortDescription oor ⟨"abc", "-100"⟩ = -20 := by
    rw [pointsForShortDescription_fin oor _ _ hp, if_pos (by decide), ceil_product_neg_100]
    exact toInt_intCast oor (-20) (by decide) (by decide)
  rw [calculateTotalPoints_eq_wrap, totalPointsForShortDescription_eq]
  simp only [List.map_cons, List.map_nil, List.sum_cons, List.sum_nil, hi]
  decide

/-- C10, as the code has it: a field on which its parser returns an error
gives 0 for the rules that read it and leaves the rest of the score as it
is.  The parser of the total and of a price is `strconv.ParseFloat`, which
also accepts strings that are not decimals; that of the date and of the time
is `time.Parse`.  (1) If `ParseFloat` fails on the
total, the round-dollar rule and the quarter rule return 0 and the score is
the sum of the other five contributions.  (2) If `time.Parse` fails on the
purchase date, `pointsForOddDay` returns 0 and the score is the sum of the
other six.  (3) If `time.Parse` fails on the purchase time,
`pointsForPurchaseTime` returns 0 and the score is the sum of the other six.
(4) If `ParseFloat` fails on the price of an item, the item gives 0 to the
description rule, the total of the description rule is that of the list
without the item, and the score is the sum of the seven contributions with
that total.  Each sum is in 64-bit arithmetic and is written with the other
fields alone.  (5) Replacing a malformed total, date or time by any other
string adds the contributions of the new string to the score and changes
nothing else. -/
theorem parse_failure_contributes_zero :
    (∀ (oor : F64 → ℤ) (r : Receipt) (e : NumError), ParseFloat r.Total = .error e →
      pointsForReceiptTotal r.Total = 0 ∧ pointsForReceiptTotalMultipleOfQuarter r.Total = 0 ∧
      calculateTotalPoints oor r =
        wrap64 (pointsForRetailerName r.Retailer + pointsPerTwoItems r.Items +
          totalPointsForShortDescription oor r.Items + pointsForOddDay r.PurchaseDate +
          pointsForPurchaseTime r.PurchaseTime)) ∧
    (∀ (oor : F64 → ℤ) (r : Receipt), parseDate r.PurchaseDate = none →
      pointsForOddDay r.PurchaseDate = 0 ∧
      calculateTotalPoints oor r =
        wrap64 (pointsForRetailerName r.Retailer + pointsForReceiptTotal r.Total +
          pointsForReceiptTotalMultipleOfQuarter r.Total + pointsPerTwoItems r.Items +
          totalPointsForShortDescription oor r.Items +
          pointsForPurchaseTime r.PurchaseTime)) ∧
    (∀ (oor : F64 → ℤ) (r : Receipt), parseClock r.PurchaseTime = none →
      pointsForPurchaseTime r.PurchaseTime = 0 ∧
      calculateTotalPoints oor r =
        wrap64 (pointsForRetailerName r.Retailer + pointsForReceiptTotal r.Total +
          pointsForReceiptTotalMultipleOfQuarter r.Total + pointsPerTwoItems r.Items +
          totalPointsForShortDescription oor r.Items + pointsForOddDay r.PurchaseDate)) ∧
    (∀ (oor : F64 → ℤ) (r : Receipt) (xs ys : List Item) (item : Item) (e : NumError),
      r.Items = xs ++ item :: ys → ParseFloat item.Price = .error e →
      pointsForShortDescription oor item = 0 ∧
      totalPointsForShortDescription oor (xs ++ item :: ys) =
        totalPointsForShortDescription oor (xs ++ ys) ∧
      calculateTotalPoints oor r =
        wrap64 (pointsForRetailerName r.Retailer + pointsForReceiptTotal r.Total +
          pointsForReceiptTotalMultipleOfQuarter r.Total + pointsPerTwoItems r.Items +
          totalPointsForShortDescription oor (xs ++ ys) + pointsForOddDay r.PurchaseDate +
          pointsForPurchaseTime r.PurchaseTime)) ∧
    (∀ (oor : F64 → ℤ) (r : Receipt) (e : NumError) (t : String),
      ParseFloat r.Total = .error e →
      calculateTotalPoints oor { r with Total := t } =
        wrap64 (calculateTotalPoints oor r + pointsForReceiptTotal t +
          pointsForReceiptTotalMultipleOfQuarter t)) ∧
    (∀ (oor : F64 → ℤ) (r : Receipt) (d : String), parseDate r.PurchaseDate = none →
      calculateTotalPoints oor { r with PurchaseDate := d } =
        wrap64 (calculateTotalPoints oor r + pointsForOddDay d)) ∧
    (∀ (oor : F64 → ℤ) (r : Receipt) (t : String), parseClock r.PurchaseTime = none →
      calculateTotalPoints oor { r with PurchaseTime := t } =
        wrap64 (calculateTotalPoints oor r + pointsForPurchaseTime t)) := by
  refine ⟨fun oor r e h => ?_, fun oor r h => ?_, fun oor r h => ?_,
    fun oor r xs ys item e hr h => ?_, fun oor r e t h => ?_, fun oor r d h => ?_,
    fun oor r t h => ?_⟩
  · have h1 : pointsForReceiptTotal r.Total = 0 := by
      unfold pointsForReceiptTotal
      rw [h]
    have h2 : pointsForReceiptTotalMultipleOfQuarter r.Total = 0 := by
      unfold pointsForReceiptTotalMultipleOfQuarter
      rw [h]
    refine ⟨h1, h2, ?_⟩
    rw [calculateTotalPoints_eq_wrap, h1, h2]
    congr 1
    ring
  · have h1 : pointsForOddDay r.PurchaseDate = 0 := by
      unfold pointsForOddDay
      rw [h]
    refine ⟨h1, ?_⟩
    rw [calculateTotalPoints_eq_wrap, h1]
    congr 1
    ring
  · have h1 : pointsForPurchaseTime r.PurchaseTime = 0 := by
      unfold pointsForPurchaseTime
      rw [h]
    refine ⟨h1, ?_⟩
    rw [calculateTotalPoints_eq_wrap, h1]
    congr 1
    ring
  · have h1 : pointsForShortDescription oor item = 0 := by
      unfold pointsForShortDescription
      rw [h]
    have h2 : totalPointsForShortDescription oor (xs ++ item :: ys) =
        totalPointsForShortDescription oor (xs ++ ys) := by
      rw [totalPointsForShortDescription_eq, totalPointsForShortDescription_eq]
      simp only [List.map_append, List.map_cons, List.sum_append, List.sum_cons, h1, zero_add]
    refine ⟨h1, h2, ?_⟩
    rw [calculateTotalPoints_eq_wrap, hr, h2]
    congr 1
    ring
  · have h1 : pointsForReceiptTotal r.Total = 0 := by
      unfold pointsForReceiptTotal
      rw [h]
    have h2 : pointsForReceiptTotalMultipleOfQuarter r.Total = 0 := by
      unfold pointsForReceiptTotalMultipleOfQuarter
      rw [h]
    have key : ∀ x a b : ℤ, wrap64 (wrap64 x + a + b) = wrap64 (x + a + b) := by
      intro x a b
      unfold wrap64
      omega
    rw [calculateTotalPoints_eq_wrap, calculateTotalPoints_eq_wrap, h1, h2, key]
    congr 1
    simp only
    ring
  · have h1 : pointsForOddDay r.PurchaseDate = 0 := by
      unfold pointsForOddDay
      rw [h]
    rw [calculateTotalPoints_eq_wrap, calculateTotalPoints_eq_wrap, h1, wrap64_add_left]
    congr 1
    simp only
    ring
  · have h1 : pointsForPurchaseTime r.PurchaseTime = 0 := by
      unfold pointsForPurchaseTime
      rw [h]
    rw [calculateTotalPoints_eq_wrap, calculateTotalPoints_eq_wrap, h1, wrap64_add_left]
    congr 1
    simp only
    ring

/-- Witness for C10: a receipt whose total `"abc"` is not a number. -/
theorem parse_failure_contributes_zero_witness :
    pointsForReceiptTotal "abc" = 0 ∧ pointsForReceiptTotalMultipleOfQuarter "abc" = 0 ∧
    calculateTotalPoints (fun _ => 0) ⟨"Target", "2022-01-01", "14:30", [], "abc"⟩ =
      wrap64 (pointsForRetailerName "Target" + pointsPerTwoItems [] +
        totalPointsForShortDescription (fun _ => 0) [] + pointsForOddDay "2022-01-01" +
        pointsForPurchaseTime "14:30") :=
  parse_failure_contributes_zero.1 (fun _ => 0) ⟨"Target", "2022-01-01", "14:30", [], "abc"⟩
    NumError.errSyn (by decide)

/-- C10 fails as stated: `"Inf"` and `"0x1p4"` are not decimals (the first
holds no digit, the second is a hexadecimal mantissa with a binary exponent)
and `ParseFloat` accepts both, as an infinity and as 16.  The total `"Inf"`
gives 50 for the round-dollar rule, the total `"0x1p4"` gives 50 and 25 for
the two rules of the total, and the item `"abc"` at the price `"0x1p4"`
gives 4 for the description rule, on every platform. -/
theorem non_decimal_is_scored :
    ("Inf".data.all (fun c => !isDigit c)) = true ∧
    ParseFloat "Inf" = .ok (F64.inf false) ∧ pointsForReceiptTotal "Inf" = 50 ∧
    ParseFloat "0x1p4" = .ok (F64.fin 16) ∧ pointsForReceiptTotal "0x1p4" = 50 ∧
    pointsForReceiptTotalMultipleOfQuarter "0x1p4" = 25 ∧
    (fun oor : F64 → ℤ => pointsForShortDescription oor ⟨"abc", "0x1p4"⟩) = fun _ => 4 := by
  refine ⟨by decide, by decide, by decide, by decide!, by decide!, by decide!, ?_⟩
  funext oor
  have hp : ParseFloat (Item.mk "abc" "0x1p4").Price = .ok (F64.fin 16) := by decide!
  have hc : F64.Ceil (F64.ofRat ((16 : ℚ) * (3602879701896397 / 18014398509481984))) =
      F64.fin ((4 : ℤ) : ℚ) := by decide!
  rw [pointsForShortDescription_fin oor _ _ hp, if_pos (by decide), hc]
  exact toInt_intCast oor 4 (by decide) (by decide)

/-! ## Boundary facts

Inputs at which the arithmetic of `int` and the conversion from `float64`
show: they are why the statements on the sign of the score carry a bound. -/

theorem ceil_product_4e19 :
    F64.Ceil (F64.ofRat ((40000000000000000000 : ℚ) *
      (3602879701896397 / 18014398509481984))) =
      F64.fin ((8000000000000000000 : ℤ) : ℚ) := by decide!

/-- C20 fails as stated: two items priced `"4e19"`, a finite value above -5.
Each is worth 8000000000000000000 points and their sum leaves the range of
`int`: the score is negative, on every platform, although no item's points
are. -/
theorem calculateTotalPoints_wraps :
    (fun oor : F64 → ℤ =>
      calculateTotalPoints oor ⟨"", "", "", [⟨"abc", "4e19"⟩, ⟨"abc", "4e19"⟩], ""⟩) =
      fun _ => -2446744073709551611 := by
  funext oor
  have hp : ParseFloat (Item.mk "abc" "4e19").Price =
      .ok (F64.fin 40000000000000000000) := by decide!
  have hi : pointsForShortDescription oor ⟨"abc", "4e19"⟩ = 8000000000000000000 := by
    rw [pointsForShortDescription_fin oor _ _ hp, if_pos (by decide), ceil_product_4e19]
    exact toInt_intCast oor 8000000000000000000 (by decide) (by decide)
  rw [calculateTotalPoints_eq_wrap, totalPointsForShortDescription_eq]
  simp only [List.map_cons, List.map_nil, List.sum_cons, List.sum_nil, hi]
  decide

theorem toInt_out_of_range (oor : F64 → ℤ) (k : ℤ) (h : (2 : ℤ) ^ 63 ≤ k) :
    F64.toInt oor (F64.fin (k : ℚ)) = wrap64 (oor (F64.fin (k : ℚ))) := by
  simp only [F64.toInt, truncQ_intCast]
  rw [if_neg (by omega)]

theorem ceil_product_1e300 :
    F64.Ceil (F64.ofRat (((1000000000000000052504760255204420248704468581108159154915854115511802457988908195786371375080447864043704443832883878176942523235360430575644792184786706982848387200926575803737830233794788090059368953234970799945081119038967640880074652742780142494579258788820056842838115669472196386865459400540160 : ℕ) : ℚ) *
      (3602879701896397 / 18014398509481984))) =
      F64.fin (((200000000000000010500952051040884049740893716221631830983170823102360491597781639157274275016089572808740888766576775635388504647072086115128958436957341396569677440185315160747566046758957618011873790646994159989016223807793528176014930548556028498915851757764011368567623133894439277373091880108032 : ℕ) : ℤ) : ℚ) := by decide!

/-- An item priced `"1e300"`: a fifth of the price is beyond the range of
`int`, and the points are what the platform makes of the conversion. -/
theorem pointsForShortDescription_out_of_range :
    (fun oor : F64 → ℤ => pointsForShortDescription oor ⟨"abc", "1e300"⟩) =
      fun oor => wrap64 (oor (F64.fin (((200000000000000010500952051040884049740893716221631830983170823102360491597781639157274275016089572808740888766576775635388504647072086115128958436957341396569677440185315160747566046758957618011873790646994159989016223807793528176014930548556028498915851757764011368567623133894439277373091880108032 : ℕ) : ℤ) : ℚ))) := by
  funext oor
  have hp : ParseFloat (Item.mk "abc" "1e300").Price =
      .ok (F64.fin ((1000000000000000052504760255204420248704468581108159154915854115511802457988908195786371375080447864043704443832883878176942523235360430575644792184786706982848387200926575803737830233794788090059368953234970799945081119038967640880074652742780142494579258788820056842838115669472196386865459400540160 : ℕ) : ℚ)) := by decide!
  rw [pointsForShortDescription_fin oor _ _ hp, if_pos (by decide), ceil_product_1e300]
  exact toInt_out_of_range oor _ (by decide)

/-! ## Lemmas: the store, the paths and the identifiers -/

theorem mapGet_filter_ne (m : Store) (k id : String) (h : id ≠ k) :
    mapGet (m.filter (fun e => decide (e.1 ≠ k))) id = mapGet m id := by
  induction m with
  | nil => rfl
  | cons e t ih =>
    obtain ⟨k1, v1⟩ := e
    by_cases hk : k1 = k
    · subst hk
      simp only [List.filter_cons, ne_eq, not_true_eq_false, decide_False, Bool.false_eq_true,
        ↓reduceIte, mapGet, h, ih]
    · simp only [List.filter_cons, ne_eq, hk, not_false_eq_true, decide_True, ↓reduceIte,
        mapGet, ih]

theorem mapGet_mapSet (m : Store) (k id : String) (v : ℤ) :
    mapGet (mapSet m k v) id = if id = k then some v else mapGet m id := by
  unfold mapSet
  by_cases h : id = k
  · simp [mapGet, h]
  · simp only [mapGet, h, ↓reduceIte]
    exact mapGet_filter_ne m k id h

theorem splitChars_no_slash (l : List Char) (h : '/' ∉ l) : splitChars l = [l] := by
  induction l with
  | nil => rfl
  | cons c cs ih =>
    have hc : c ≠ '/' := fun e => h (e ▸ List.mem_cons_self _ _)
    have hcs : '/' ∉ cs := fun e => h (List.mem_cons_of_mem _ e)
    simp only [splitChars, hc, ↓reduceIte, ih hcs]

theorem splitChars_append_slash (l rest : List Char) (h : '/' ∉ l) :
    splitChars (l ++ '/' :: rest) = l :: splitChars rest := by
  induction l with
  | nil => simp [splitChars]
  | cons c cs ih =>
    have hc : c ≠ '/' := fun e => h (e ▸ List.mem_cons_self _ _)
    have hcs : '/' ∉ cs := fun e => h (List.mem_cons_of_mem _ e)
    show splitChars (c :: (cs ++ '/' :: rest)) = _
    rw [splitChars, if_neg hc, ih hcs]

theorem split_receipt_path (id : String) (h : '/' ∉ id.data) :
    Split ("/receipts/" ++ id ++ "/points") = ["", "receipts", id, "points"] := by
  unfold Split
  have hd : ("/receipts/" ++ id ++ "/points").data =
      [] ++ '/' :: ("receipts".data ++ '/' :: (id.data ++ '/' :: "points".data)) := by
    simp [String.data_append]
  rw [hd, splitChars_append_slash _ _ (by simp),
    splitChars_append_slash _ _ (by decide), splitChars_append_slash _ _ h,
    splitChars_no_slash _ (by decide)]
  rfl

theorem hexDigit_ne_slash : ∀ n, n < 16 → hexDigit n ≠ '/' := by decide

theorem hexEncode_ne_slash (bs : List ℕ) : '/' ∉ hexEncode bs := by
  induction bs with
  | nil => simp [hexEncode]
  | cons b t ih =>
    have h1 := hexDigit_ne_slash (b / 16 % 16) (Nat.mod_lt _ (by decide))
    have h2 := hexDigit_ne_slash (b % 16) (Nat.mod_lt _ (by decide))
    simp only [hexEncode, hexByte, List.cons_append, List.nil_append, List.mem_cons, not_or]
    exact ⟨fun e => h1 e.symm, fun e => h2 e.symm, ih⟩

theorem uuidString_no_slash (u : List ℕ) : '/' ∉ (uuidString u).data := by
  unfold uuidString
  have h := hexEncode_ne_slash
  simp only [List.mem_append, List.mem_singleton, not_or]
  refine ⟨⟨⟨⟨⟨⟨⟨⟨h _, by decide⟩, h _⟩, by decide⟩, h _⟩, by decide⟩, h _⟩, by decide⟩, h _⟩

theorem uniqueReceiptUUID_fresh (env : Env) (m : Store) (fuel draws : ℕ) (id : String)
    (d1 : ℕ) (h : uniqueReceiptUUID env m fuel draws = some (id, d1)) :
    mapGet m id = none ∧ draws < d1 ∧ id = uuidString (uuidNew (env.rnd (d1 - 1))) := by
  induction fuel generalizing draws with
  | zero => simp [uniqueReceiptUUID] at h
  | succ n ih =>
    simp only [uniqueReceiptUUID] at h
    split at h
    · rename_i hf
      simp only [Option.some.injEq, Prod.mk.injEq] at h
      obtain ⟨h1, h2⟩ := h
      subst h1 h2
      exact ⟨hf, Nat.lt_succ_self _, by simp⟩
    · have h3 := ih (draws + 1) h
      exact ⟨h3.1, by omega, h3.2.2⟩

theorem uniqueReceiptUUID_returns (env : Env) (m : Store) (n : ℕ) :
    ∀ draws fuel : ℕ, mapGet m (uuidString (uuidNew (env.rnd (draws + n)))) = none →
      n < fuel → ∃ res, uniqueReceiptUUID env m fuel draws = some res := by
  induction n with
  | zero =>
    intro draws fuel h hf
    obtain ⟨k, rfl⟩ : ∃ k, fuel = k + 1 := ⟨fuel - 1, by omega⟩
    simp only [uniqueReceiptUUID]
    rw [if_pos (by simpa using h)]
    exact ⟨_, rfl⟩
  | succ n ih =>
    intro draws fuel h hf
    obtain ⟨k, rfl⟩ : ∃ k, fuel = k + 1 := ⟨fuel - 1, by omega⟩
    simp only [uniqueReceiptUUID]
    split
    · exact ⟨_, rfl⟩
    · apply ih (draws + 1) k _ (by omega)
      have : draws + 1 + n = draws + (n + 1) := by omega
      rw [this]
      exact h

theorem pointsHandler_receipt_path (s : Server) (body id : String) (h : '/' ∉ id.data) :
    pointsHandler s ⟨"GET", "/receipts/" ++ id ++ "/points", body⟩ =
      match mapGet s.receiptPointsMap id with
      | none => ⟨404, Payload.text "Receipt not found"⟩
      | some n => ⟨200, Payload.points n⟩ := by
  unfold pointsHandler
  simp only [↓reduceIte, split_receipt_path id h, List.length_cons, List.length_nil]
  rw [if_neg (by simp)]
  rfl

theorem processHandler_step (env : Env) (fuel : ℕ) (s s1 : Server) (r : Request)
    (resp : Response) (h : processHandler env fuel s r = some (resp, s1)) :
    (s1 = s ∧ (resp.status = 400 ∨ resp.status = 405)) ∨
    (∃ (id : String) (receipt : Receipt), r.Method = "POST" ∧
      env.decode r.Body = some receipt ∧ resp = ⟨200, Payload.id id⟩ ∧
      mapGet s.receiptPointsMap id = none ∧ '/' ∉ id.data ∧
      s.draws < s1.draws ∧ id = uuidString (uuidNew (env.rnd (s1.draws - 1))) ∧
      s1.receiptPointsMap =
        mapSet s.receiptPointsMap id (calculateTotalPoints env.oor receipt)) := by
  unfold processHandler at h
  split at h
  · rename_i hm
    split at h
    · simp only [Option.some.injEq, Prod.mk.injEq] at h
      obtain ⟨h1, h2⟩ := h
      subst h1 h2
      exact Or.inl ⟨rfl, Or.inl rfl⟩
    · rename_i receipt hd
      split at h
      · simp at h
      · rename_i id d1 hu
        simp only [Option.some.injEq, Prod.mk.injEq] at h
        obtain ⟨h1, h2⟩ := h
        subst h1 h2
        have hf := uniqueReceiptUUID_fresh env _ _ _ _ _ hu
        refine Or.inr ⟨id, receipt, hm, hd, rfl, hf.1, ?_, hf.2.1, hf.2.2, rfl⟩
        rw [hf.2.2]
        exact uuidString_no_slash _
  · simp only [Option.some.injEq, Prod.mk.injEq] at h
    obtain ⟨h1, h2⟩ := h
    subst h1 h2
    exact Or.inl ⟨rfl, Or.inr rfl⟩

theorem pointsHandler_status (s : Server) (r : Request) :
    (pointsHandler s r).status = 200 ∨ (pointsHandler s r).status = 400 ∨
      (pointsHandler s r).status = 404 ∨ (pointsHandler s r).status = 405 := by
  unfold pointsHandler
  split
  · simp only
    split
    · exact Or.inr (Or.inl rfl)
    · split
      · exact Or.inr (Or.inr (Or.inl rfl))
      · exact Or.inl rfl
  · exact Or.inr (Or.inr (Or.inr rfl))

theorem serve_keeps (env : Env) (fuel : ℕ) (s s1 : Server) (route : Route) (r : Request)
    (resp : Response) (h : serve env fuel s route r = some (resp, s1)) (k : String) (v : ℤ)
    (hk : mapGet s.receiptPointsMap k = some v) : mapGet s1.receiptPointsMap k = some v := by
  cases route with
  | process =>
    rcases processHandler_step env fuel s s1 r resp h with ⟨h1, _⟩ | ⟨id, receipt, _, _, _, hf,
      _, _, _, hs⟩
    · rw [h1]
      exact hk
    · rw [hs, mapGet_mapSet]
      have hne : k ≠ id := by
        intro e
        rw [e, hf] at hk
        cases hk
      rw [if_neg hne]
      exact hk
  | points =>
    simp only [serve, Option.some.injEq, Prod.mk.injEq] at h
    rw [← h.2]
    exact hk
  | mux =>
    simp only [serve, Option.some.injEq, Prod.mk.injEq] at h
    rw [← h.2]
    exact hk

theorem run_keeps (env : Env) (fuel : ℕ) (evs : List (Route × Request)) :
    ∀ (s s1 : Server) (resps : List Response), run env fuel s evs = some (resps, s1) →
      ∀ (k : String) (v : ℤ), mapGet s.receiptPointsMap k = some v →
        mapGet s1.receiptPointsMap k = some v := by
  induction evs with
  | nil =>
    intro s s1 resps h k v hk
    simp only [run, Option.some.injEq, Prod.mk.injEq] at h
    rw [← h.2]
    exact hk
  | cons ev rest ih =>
    intro s s1 resps h k v hk
    obtain ⟨route, r⟩ := ev
    simp only [run] at h
    split at h
    · simp at h
    · rename_i resp sm hserve
      split at h
      · simp at h
      · rename_i resps2 s2 hrun
        simp only [Option.some.injEq, Prod.mk.injEq] at h
        rw [← h.2]
        exact ih sm s2 resps2 hrun k v (serve_keeps env fuel s sm route r resp hserve k v hk)

theorem run_keys_issued (env : Env) (fuel : ℕ) (evs : List (Route × Request)) :
    ∀ (s s1 : Server) (resps : List Response), run env fuel s evs = some (resps, s1) →
      ∀ id : String, mapGet s.receiptPointsMap id = none →
        (∀ resp ∈ resps, resp ≠ ⟨200, Payload.id id⟩) →
        mapGet s1.receiptPointsMap id = none := by
  induction evs with
  | nil =>
    intro s s1 resps h id hk _
    simp only [run, Option.some.injEq, Prod.mk.injEq] at h
    rw [← h.2]
    exact hk
  | cons ev rest ih =>
    intro s s1 resps h id hk hr
    obtain ⟨route, r⟩ := ev
    simp only [run] at h
    split at h
    · simp at h
    · rename_i resp sm hserve
      split at h
      · simp at h
      · rename_i resps2 s2 hrun
        simp only [Option.some.injEq, Prod.mk.injEq] at h
        obtain ⟨h1, h2⟩ := h
        subst h1 h2
        apply ih sm s2 resps2 hrun id _ (fun x hx => hr x (List.mem_cons_of_mem _ hx))
        have hresp := hr resp (List.mem_cons_self _ _)
        cases route with
        | process =>
          rcases processHandler_step env fuel s sm r resp hserve with ⟨h1, _⟩ |
            ⟨id1, receipt, _, _, he, _, _, _, _, hs⟩
          · rw [h1]
            exact hk
          · rw [hs, mapGet_mapSet]
            have hne : id ≠ id1 := by
              intro e
              apply hresp
              rw [he, e]
            rw [if_neg hne]
            exact hk
        | points =>
          simp only [serve, Option.some.injEq, Prod.mk.injEq] at hserve
          rw [← hserve.2]
          exact hk
        | mux =>
          simp only [serve, Option.some.injEq, Prod.mk.injEq] at hserve
          rw [← hserve.2]
          exact hk

/-! ## Claims on the endpoints -/

/-- C11: a `POST` whose body decodes to `receipt`, handled in a state where
some later draw of `uuid.New` is not a key of the store, returns, given fuel
for that many draws: the response is 200 with an identifier that is the
string of a drawn UUID and holds no `/`, and in the state it leaves the
request `GET /receipts/{id}/points` is answered 200 with
`calculateTotalPoints(receipt)`. -/
theorem submit_then_lookup (env : Env) (s : Server) (r : Request) (receipt : Receipt)
    (n fuel : ℕ) (hm : r.Method = "POST") (hd : env.decode r.Body = some receipt)
    (hfresh : mapGet s.receiptPointsMap
      (uuidString (uuidNew (env.rnd (s.draws + n)))) = none)
    (hfuel : n < fuel) :
    ∃ (id : String) (s1 : Server),
      processHandler env fuel s r = some (⟨200, Payload.id id⟩, s1) ∧
      (∃ i, id = uuidString (uuidNew (env.rnd i))) ∧ '/' ∉ id.data ∧
      ∀ body : String,
        pointsHandler s1 ⟨"GET", "/receipts/" ++ id ++ "/points", body⟩ =
          ⟨200, Payload.points (calculateTotalPoints env.oor receipt)⟩ := by
  obtain ⟨⟨id, d1⟩, hu⟩ := uniqueReceiptUUID_returns env s.receiptPointsMap n s.draws fuel
    hfresh hfuel
  have hf := uniqueReceiptUUID_fresh env _ _ _ _ _ hu
  have hns : '/' ∉ id.data := by
    rw [hf.2.2]
    exact uuidString_no_slash _
  refine ⟨id, ⟨mapSet s.receiptPointsMap id (calculateTotalPoints env.oor receipt), d1⟩,
    ?_, ⟨_, hf.2.2⟩, hns, fun body => ?_⟩
  · unfold processHandler
    rw [if_pos hm, hd]
    simp only [hu]
  · rw [pointsHandler_receipt_path _ _ _ hns]
    simp only [mapGet_mapSet, ↓reduceIte]

/-- Witness for C11: the first submission to an empty store, with a random
source that gives 0 first. -/
theorem submit_then_lookup_witness :
    ∃ (id : String) (s1 : Server),
      processHandler exampleEnv 1 ⟨[], 0⟩ ⟨"POST", "/receipts/process", ""⟩ =
        some (⟨200, Payload.id id⟩, s1) ∧
      (∃ i, id = uuidString (uuidNew (exampleEnv.rnd i))) ∧ '/' ∉ id.data ∧
      ∀ body : String,
        pointsHandler s1 ⟨"GET", "/receipts/" ++ id ++ "/points", body⟩ =
          ⟨200, Payload.points (calculateTotalPoints exampleEnv.oor
            ⟨"Target", "2022-01-01", "13:01", [], "35.35"⟩)⟩ :=
  submit_then_lookup exampleEnv ⟨[], 0⟩ ⟨"POST", "/receipts/process", ""⟩
    ⟨"Target", "2022-01-01", "13:01", [], "35.35"⟩ 0 1 rfl rfl rfl (by decide)

/-- C12: when two submissions of one body, one after the other, both return,
each response is 200 with an identifier that was not a key of the store
before its submission, the two identifiers differ, and after the second
submission a lookup of either is answered 200 with
`calculateTotalPoints(receipt)`. -/
theorem double_submission (env : Env) (fuel1 fuel2 : ℕ) (s0 s1 s2 : Server) (r : Request)
    (receipt : Receipt) (resp1 resp2 : Response) (hd : env.decode r.Body = some receipt)
    (h1 : processHandler env fuel1 s0 r = some (resp1, s1)) (hs1 : resp1.status = 200)
    (h2 : processHandler env fuel2 s1 r = some (resp2, s2)) (hs2 : resp2.status = 200) :
    ∃ id1 id2 : String, resp1 = ⟨200, Payload.id id1⟩ ∧ resp2 = ⟨200, Payload.id id2⟩ ∧
      id1 ≠ id2 ∧ mapGet s0.receiptPointsMap id1 = none ∧
      mapGet s1.receiptPointsMap id2 = none ∧
      (∀ body : String,
        pointsHandler s2 ⟨"GET", "/receipts/" ++ id1 ++ "/points", body⟩ =
          ⟨200, Payload.points (calculateTotalPoints env.oor receipt)⟩) ∧
      (∀ body : String,
        pointsHandler s2 ⟨"GET", "/receipts/" ++ id2 ++ "/points", body⟩ =
          ⟨200, Payload.points (calculateTotalPoints env.oor receipt)⟩) := by
  rcases processHandler_step env fuel1 s0 s1 r resp1 h1 with ⟨_, hbad⟩ |
    ⟨id1, rc1, _, hd1, he1, hf1, hn1, _, _, hm1⟩
  · rcases hbad with hbad | hbad <;> rw [hbad] at hs1 <;> cases hs1
  rcases processHandler_step env fuel2 s1 s2 r resp2 h2 with ⟨_, hbad⟩ |
    ⟨id2, rc2, _, hd2, he2, hf2, hn2, _, _, hm2⟩
  · rcases hbad with hbad | hbad <;> rw [hbad] at hs2 <;> cases hs2
  rw [hd] at hd1 hd2
  cases hd1
  cases hd2
  have hne : id1 ≠ id2 := by
    intro e
    rw [hm1, mapGet_mapSet, ← e, if_pos rfl] at hf2
    cases hf2
  refine ⟨id1, id2, he1, he2, hne, hf1, hf2, fun body => ?_, fun body => ?_⟩
  · rw [pointsHandler_receipt_path _ _ _ hn1, hm2, mapGet_mapSet, if_neg hne, hm1,
      mapGet_mapSet, if_pos rfl]
  · rw [pointsHandler_receipt_path _ _ _ hn2, hm2, mapGet_mapSet, if_pos rfl]

/-- Witness for C12: two submissions to an empty store, with a random source
that gives 0, then 1. -/
theorem double_submission_witness :
    ∃ id1 id2 : String,
      (⟨200, Payload.id "00000000-0000-4000-8000-000000000000"⟩ : Response) =
        ⟨200, Payload.id id1⟩ ∧
      (⟨200, Payload.id "00000000-0000-4000-8000-000000000001"⟩ : Response) =
        ⟨200, Payload.id id2⟩ ∧
      id1 ≠ id2 ∧ mapGet [] id1 = none ∧
      mapGet [("00000000-0000-4000-8000-000000000000", 12)] id2 = none ∧
      (∀ body : String,
        pointsHandler ⟨[("00000000-0000-4000-8000-000000000001", 12),
            ("00000000-0000-4000-8000-000000000000", 12)], 2⟩
          ⟨"GET", "/receipts/" ++ id1 ++ "/points", body⟩ =
          ⟨200, Payload.points (calculateTotalPoints exampleEnv.oor
            ⟨"Target", "2022-01-01", "13:01", [], "35.35"⟩)⟩) ∧
      (∀ body : String,
        pointsHandler ⟨[("00000000-0000-4000-8000-000000000001", 12),
            ("00000000-0000-4000-8000-000000000000", 12)], 2⟩
          ⟨"GET", "/receipts/" ++ id2 ++ "/points", body⟩ =
          ⟨200, Payload.points (calculateTotalPoints exampleEnv.oor
            ⟨"Target", "2022-01-01", "13:01", [], "35.35"⟩)⟩) :=
  double_submission exampleEnv 1 1 ⟨[], 0⟩
    ⟨[("00000000-0000-4000-8000-000000000000", 12)], 1⟩
    ⟨[("00000000-0000-4000-8000-000000000001", 12),
      ("00000000-0000-4000-8000-000000000000", 12)], 2⟩
    ⟨"POST", "/receipts/process", ""⟩ ⟨"Target", "2022-01-01", "13:01", [], "35.35"⟩
    ⟨200, Payload.id "00000000-0000-4000-8000-000000000000"⟩
    ⟨200, Payload.id "00000000-0000-4000-8000-000000000001"⟩
    rfl (by decide!) rfl (by decide!) rfl

/-- C13: a `GET` whose path is `/receipts/{id}/points`, with `id` one
segment, is answered 404 when `id` is not a key of the store and 200 with
the integer stored under `id` when it is.  After any sequence of requests
served from the empty store, an identifier that no response has issued is
not a key: its lookup is answered 404. -/
theorem lookup_by_id :
    (∀ (s : Server) (body id : String), '/' ∉ id.data →
      mapGet s.receiptPointsMap id = none →
      pointsHandler s ⟨"GET", "/receipts/" ++ id ++ "/points", body⟩ =
        ⟨404, Payload.text "Receipt not found"⟩) ∧
    (∀ (s : Server) (body id : String) (n : ℤ), '/' ∉ id.data →
      mapGet s.receiptPointsMap id = some n →
      pointsHandler s ⟨"GET", "/receipts/" ++ id ++ "/points", body⟩ =
        ⟨200, Payload.points n⟩) ∧
    (∀ (env : Env) (fuel : ℕ) (evs : List (Route × Request)) (resps : List Response)
      (s : Server) (body id : String), run env fuel ⟨[], 0⟩ evs = some (resps, s) →
      '/' ∉ id.data → (∀ resp ∈ resps, resp ≠ ⟨200, Payload.id id⟩) →
      pointsHandler s ⟨"GET", "/receipts/" ++ id ++ "/points", body⟩ =
        ⟨404, Payload.text "Receipt not found"⟩) := by
  refine ⟨fun s body id h hk => ?_, fun s body id n h hk => ?_,
    fun env fuel evs resps s body id hrun h hr => ?_⟩
  · rw [pointsHandler_receipt_path s body id h, hk]
  · rw [pointsHandler_receipt_path s body id h, hk]
  · rw [pointsHandler_receipt_path s body id h,
      run_keys_issued env fuel evs ⟨[], 0⟩ s resps hrun id rfl hr]

/-- Witness for C13: a store with one entry, looked up. -/
theorem lookup_by_id_witness :
    pointsHandler ⟨[("abc", 28)], 1⟩ ⟨"GET", "/receipts/" ++ "abc" ++ "/points", ""⟩ =
      ⟨200, Payload.points 28⟩ :=
  lookup_by_id.2.1 ⟨[("abc", 28)], 1⟩ "" "abc" 28 (by decide) rfl

/-- C14, as the code has it: a `GET` given to the handler of `/receipts/` is
answered 400 exactly when its path, split at `/`, has fewer than four parts
or a last part other than `points`.  Otherwise the part before the last is
looked up, whatever stands before it: `/receipts/a/b/points` is answered as
the lookup of `b`. -/
theorem pointsHandler_guard :
    (∀ (s : Server) (r : Request), r.Method = "GET" →
      ((pointsHandler s r).status = 400 ↔
        ((Split r.Path).length < 4 ∨
          (Split r.Path).getD ((Split r.Path).length - 1) "" ≠ "points"))) ∧
    (∀ (s : Server) (r : Request), r.Method = "GET" →
      ¬ ((Split r.Path).length < 4 ∨
          (Split r.Path).getD ((Split r.Path).length - 1) "" ≠ "points") →
      pointsHandler s r =
        match mapGet s.receiptPointsMap
          ((Split r.Path).getD ((Split r.Path).length - 2) "") with
        | none => ⟨404, Payload.text "Receipt not found"⟩
        | some n => ⟨200, Payload.points n⟩) ∧
    (∀ (s : Server) (body a b : String), '/' ∉ a.data → '/' ∉ b.data →
      pointsHandler s ⟨"GET", "/receipts/" ++ a ++ "/" ++ b ++ "/points", body⟩ =
        match mapGet s.receiptPointsMap b with
        | none => ⟨404, Payload.text "Receipt not found"⟩
        | some n => ⟨200, Payload.points n⟩) := by
  refine ⟨fun s r hm => ?_, fun s r hm hg => ?_, fun s body a b ha hb => ?_⟩
  · unfold pointsHandler
    rw [if_pos hm]
    simp only
    split
    · rename_i hg
      exact ⟨fun _ => hg, fun _ => rfl⟩
    · rename_i hg
      constructor
      · intro h4
        split at h4 <;> cases h4
      · intro h4
        exact absurd h4 hg
  · unfold pointsHandler
    rw [if_pos hm]
    simp only
    rw [if_neg hg]
  · have hsplit : Split ("/receipts/" ++ a ++ "/" ++ b ++ "/points") =
        ["", "receipts", a, b, "points"] := by
      unfold Split
      have hd : ("/receipts/" ++ a ++ "/" ++ b ++ "/points").data =
          [] ++ '/' :: ("receipts".data ++ '/' :: (a.data ++ '/' ::
            (b.data ++ '/' :: "points".data))) := by
        simp [String.data_append]
      rw [hd, splitChars_append_slash _ _ (by simp),
        splitChars_append_slash _ _ (by decide), splitChars_append_slash _ _ ha,
        splitChars_append_slash _ _ hb, splitChars_no_slash _ (by decide)]
      rfl
    unfold pointsHandler
    simp only [↓reduceIte, hsplit, List.length_cons, List.length_nil]
    rw [if_neg (by simp)]
    rfl

/-- Witness for C14: the path `/receipts/points` has three parts and is
answered 400. -/
theorem pointsHandler_guard_witness :
    (pointsHandler ⟨[], 0⟩ ⟨"GET", "/receipts/points", ""⟩).status = 400 :=
  (pointsHandler_guard.1 ⟨[], 0⟩ ⟨"GET", "/receipts/points", ""⟩ rfl).mpr (by decide)

/-- C14 fails as stated: the path `/receipts/a/b/points` does not have the
shape `/receipts/{id}/points`, and the handler answers it 404 on an empty
store and 200 with the points of `b` on a store that has the key `b`. -/
theorem extra_segment_not_rejected :
    pointsHandler ⟨[], 0⟩ ⟨"GET", "/receipts/a/b/points", ""⟩ =
      ⟨404, Payload.text "Receipt not found"⟩ ∧
    pointsHandler ⟨[("b", 7)], 1⟩ ⟨"GET", "/receipts/a/b/points", ""⟩ =
      ⟨200, Payload.points 7⟩ := by
  constructor <;> decide

/-- C15: the handler of `/receipts/process` answers 405 to every request
whose method is not `POST`, whatever the body, and the handler of
`/receipts/` answers 405 to every request whose method is not `GET`,
whatever the path and the store; neither touches the state. -/
theorem method_not_allowed :
    (∀ (env : Env) (fuel : ℕ) (s : Server) (r : Request), r.Method ≠ "POST" →
      processHandler env fuel s r =
        some (⟨405, Payload.text "Method Not Allowed"⟩, s)) ∧
    (∀ (s : Server) (r : Request), r.Method ≠ "GET" →
      pointsHandler s r = ⟨405, Payload.text "Method Not Allowed"⟩) := by
  constructor
  · intro env fuel s r h
    unfold processHandler
    rw [if_neg h]
  · intro s r h
    unfold pointsHandler
    rw [if_neg h]

/-- Witness for C15: a `DELETE` of a known identifier. -/
theorem method_not_allowed_witness :
    pointsHandler ⟨[("abc", 28)], 1⟩ ⟨"DELETE", "/receipts/abc/points", ""⟩ =
      ⟨405, Payload.text "Method Not Allowed"⟩ :=
  method_not_allowed.2 ⟨[("abc", 28)], 1⟩ ⟨"DELETE", "/receipts/abc/points", ""⟩ (by decide)

theorem serve_unchanged (env : Env) (fuel : ℕ) (s s1 : Server) (route : Route) (r : Request)
    (resp : Response) (h : serve env fuel s route r = some (resp, s1))
    (hc : route ≠ Route.process ∨ resp.status ≠ 200) : s1 = s := by
  cases route with
  | process =>
    rcases processHandler_step env fuel s s1 r resp h with ⟨h1, _⟩ | ⟨id, _, _, _, he, _⟩
    · exact h1
    · rcases hc with hc | hc
      · exact absurd rfl hc
      · rw [he] at hc
        exact absurd rfl hc
  | points =>
    simp only [serve, Option.some.injEq, Prod.mk.injEq] at h
    exact h.2.symm
  | mux =>
    simp only [serve, Option.some.injEq, Prod.mk.injEq] at h
    exact h.2.symm

theorem mapSet_length_le (m : Store) (k : String) (v : ℤ) :
    (mapSet m k v).length ≤ m.length + 1 := by
  unfold mapSet
  have := List.length_filter_le (fun e : String × ℤ => decide (e.1 ≠ k)) m
  simp only [List.length_cons]
  omega

theorem mem_keys_of_mapGet (m : Store) (k : String) (h : mapGet m k ≠ none) :
    k ∈ m.map Prod.fst := by
  induction m with
  | nil => exact absurd rfl h
  | cons e t ih =>
    obtain ⟨k1, v1⟩ := e
    by_cases hk : k = k1
    · simp [hk]
    · simp only [mapGet, hk, ↓reduceIte] at h
      simp only [List.map_cons, List.mem_cons]
      exact Or.inr (ih h)

theorem exists_fresh_draw (env : Env) (m : Store) (draws bound : ℕ)
    (hb : draws + m.length + 1 ≤ bound)
    (hinj : ∀ i, i < bound → ∀ j, j < bound →
      uuidString (uuidNew (env.rnd i)) = uuidString (uuidNew (env.rnd j)) → i = j) :
    ∃ n, n ≤ m.length ∧ mapGet m (uuidString (uuidNew (env.rnd (draws + n)))) = none := by
  by_contra hcon
  push_neg at hcon
  have hmem : ∀ n ∈ Finset.range (m.length + 1),
      uuidString (uuidNew (env.rnd (draws + n))) ∈ (m.map Prod.fst).toFinset := by
    intro n hn
    rw [List.mem_toFinset]
    exact mem_keys_of_mapGet m _ (hcon n (by simpa [Nat.lt_succ_iff] using hn))
  have hinj2 : Set.InjOn (fun n => uuidString (uuidNew (env.rnd (draws + n))))
      (Finset.range (m.length + 1) : Set ℕ) := by
    intro a ha b hb2 hab
    have ha1 : a < m.length + 1 := by simpa using ha
    have hb1 : b < m.length + 1 := by simpa using hb2
    have := hinj (draws + a) (by omega) (draws + b) (by omega) hab
    omega
  have hcard := Finset.card_le_card_of_injOn _ hmem hinj2
  have hle : (m.map Prod.fst).toFinset.card ≤ m.length := by
    calc (m.map Prod.fst).toFinset.card ≤ (m.map Prod.fst).length := List.toFinset_card_le _
      _ = m.length := List.length_map _ _
  rw [Finset.card_range] at hcard
  omega

theorem uniqueReceiptUUID_draws_le (env : Env) (m : Store) (fuel : ℕ) :
    ∀ (draws : ℕ) (id : String) (d1 : ℕ),
      uniqueReceiptUUID env m fuel draws = some (id, d1) → d1 ≤ draws + fuel := by
  induction fuel with
  | zero =>
    intro draws id d1 h
    simp [uniqueReceiptUUID] at h
  | succ k ih =>
    intro draws id d1 h
    simp only [uniqueReceiptUUID] at h
    split at h
    · simp only [Option.some.injEq, Prod.mk.injEq] at h
      omega
    · have := ih (draws + 1) id d1 h
      omega

theorem serve_returns (env : Env) (fuel bound : ℕ) (s : Server) (route : Route)
    (r : Request) (hfuel : s.receiptPointsMap.length < fuel)
    (hb : s.draws + fuel ≤ bound)
    (hinj : ∀ i, i < bound → ∀ j, j < bound →
      uuidString (uuidNew (env.rnd i)) = uuidString (uuidNew (env.rnd j)) → i = j) :
    ∃ (resp : Response) (s1 : Server), serve env fuel s route r = some (resp, s1) ∧
      s1.receiptPointsMap.length ≤ s.receiptPointsMap.length + 1 ∧
      s1.draws ≤ s.draws + fuel := by
  cases route with
  | process =>
    unfold serve processHandler
    simp only
    split
    · split
      · exact ⟨_, _, rfl, Nat.le_succ _, Nat.le_add_right _ _⟩
      · obtain ⟨n, hn, hf⟩ := exists_fresh_draw env s.receiptPointsMap s.draws bound
          (by omega) hinj
        obtain ⟨⟨id, d1⟩, hu⟩ := uniqueReceiptUUID_returns env s.receiptPointsMap n s.draws
          fuel hf (by omega)
        have hd := uniqueReceiptUUID_draws_le env s.receiptPointsMap fuel s.draws id d1 hu
        simp only [hu]
        exact ⟨_, _, rfl, mapSet_length_le _ _ _, hd⟩
    · exact ⟨_, _, rfl, Nat.le_succ _, Nat.le_add_right _ _⟩
  | points => exact ⟨_, _, rfl, Nat.le_succ _, Nat.le_add_right _ _⟩
  | mux => exact ⟨_, _, rfl, Nat.le_succ _, Nat.le_add_right _ _⟩

theorem run_returns (env : Env) (fuel bound : ℕ)
    (hinj : ∀ i, i < bound → ∀ j, j < bound →
      uuidString (uuidNew (env.rnd i)) = uuidString (uuidNew (env.rnd j)) → i = j)
    (evs : List (Route × Request)) :
    ∀ s : Server, s.receiptPointsMap.length + evs.length < fuel →
      s.draws + evs.length * fuel ≤ bound →
      ∃ (resps : List Response) (s1 : Server), run env fuel s evs = some (resps, s1) := by
  induction evs with
  | nil =>
    intro s _ _
    exact ⟨[], s, rfl⟩
  | cons ev rest ih =>
    intro s hfuel hb
    obtain ⟨route, r⟩ := ev
    simp only [List.length_cons] at hfuel hb
    have e : (rest.length + 1) * fuel = rest.length * fuel + fuel := by ring
    rw [e] at hb
    obtain ⟨resp, sm, hserve, hlen, hdr⟩ := serve_returns env fuel bound s route r
      (by omega) (by omega) hinj
    obtain ⟨resps, s1, hrun⟩ := ih sm (by omega) (by omega)
    refine ⟨resp :: resps, s1, ?_⟩
    simp only [run, hserve, hrun]

/-- C16: over the requests served one at a time from the empty store, (1) an
identifier stored with a score keeps that score after every later request;
(2) a request given to the lookup handler or to no handler, or answered
with a status other than 200, leaves the state as it was; (3) a `POST`
answered 200 adds one key, which was not a key before, with the score of the
receipt, and changes no other entry; (4) the handlers answer 200, 400, 404
or 405 only; and (5) every sequence of `n` requests is served to its end,
given fuel above `n`, when no UUID comes twice among the first `n * (n + 1)`
draws. -/
theorem store_only_grows :
    (∀ (env : Env) (fuel1 fuel2 : ℕ) (evs1 evs2 : List (Route × Request))
      (resps1 resps2 : List Response) (s1 s2 : Server),
      run env fuel1 ⟨[], 0⟩ evs1 = some (resps1, s1) →
      run env fuel2 s1 evs2 = some (resps2, s2) →
      ∀ (k : String) (v : ℤ), mapGet s1.receiptPointsMap k = some v →
        mapGet s2.receiptPointsMap k = some v) ∧
    (∀ (env : Env) (fuel : ℕ) (s s1 : Server) (route : Route) (r : Request)
      (resp : Response), serve env fuel s route r = some (resp, s1) →
      route ≠ Route.process ∨ resp.status ≠ 200 → s1 = s) ∧
    (∀ (env : Env) (fuel : ℕ) (s s1 : Server) (r : Request) (resp : Response),
      serve env fuel s Route.process r = some (resp, s1) → resp.status = 200 →
      ∃ (id : String) (receipt : Receipt), resp.body = Payload.id id ∧
        env.decode r.Body = some receipt ∧ mapGet s.receiptPointsMap id = none ∧
        ∀ k : String, mapGet s1.receiptPointsMap k =
          if k = id then some (calculateTotalPoints env.oor receipt)
          else mapGet s.receiptPointsMap k) ∧
    (∀ (env : Env) (fuel : ℕ) (s s1 : Server) (route : Route) (r : Request)
      (resp : Response), serve env fuel s route r = some (resp, s1) →
      route ≠ Route.mux →
      resp.status = 200 ∨ resp.status = 400 ∨ resp.status = 404 ∨ resp.status = 405) ∧
    (∀ (env : Env) (evs : List (Route × Request)),
      (∀ i, i < evs.length * (evs.length + 1) → ∀ j, j < evs.length * (evs.length + 1) →
        uuidString (uuidNew (env.rnd i)) = uuidString (uuidNew (env.rnd j)) → i = j) →
      ∃ (resps : List Response) (s1 : Server),
        run env (evs.length + 1) ⟨[], 0⟩ evs = some (resps, s1)) := by
  refine ⟨fun env fuel1 fuel2 evs1 evs2 resps1 resps2 s1 s2 _ h2 k v hk => ?_,
    serve_unchanged, fun env fuel s s1 r resp h hs => ?_,
    fun env fuel s s1 route r resp h hr => ?_, fun env evs hinj => ?_⟩
  · exact run_keeps env fuel2 evs2 s1 s2 resps2 h2 k v hk
  · rcases processHandler_step env fuel s s1 r resp h with ⟨_, hbad⟩ |
      ⟨id, receipt, _, hd, he, hf, _, _, _, hm⟩
    · rcases hbad with hbad | hbad <;> rw [hbad] at hs <;> cases hs
    · refine ⟨id, receipt, by rw [he], hd, hf, fun k => ?_⟩
      rw [hm, mapGet_mapSet]
  · cases route with
    | process =>
      rcases processHandler_step env fuel s s1 r resp h with ⟨_, hbad⟩ |
        ⟨id, receipt, _, _, he, _⟩
      · rcases hbad with hbad | hbad
        · exact Or.inr (Or.inl hbad)
        · exact Or.inr (Or.inr (Or.inr hbad))
      · rw [he]
        exact Or.inl rfl
    | points =>
      simp only [serve, Option.some.injEq, Prod.mk.injEq] at h
      rw [← h.1]
      exact pointsHandler_status s r
    | mux => exact absurd rfl hr
  · exact run_returns env (evs.length + 1) (evs.length * (evs.length + 1)) hinj evs ⟨[], 0⟩
      (by simp) (by simp)

/-- Witness for C16: a submission, a lookup of its identifier and a request
with a wrong method, served from the empty store; the entry of the first
request is there at the end.  Two submissions are served to their end by a
random source that gives 0, 1, 2 and so on, whose first six UUIDs differ. -/
theorem store_only_grows_witness :
    mapGet (Server.mk [("00000000-0000-4000-8000-000000000000", 12)] 1).receiptPointsMap
      "00000000-0000-4000-8000-000000000000" = some 12 ∧
    ∃ (resps : List Response) (s1 : Server),
      run exampleEnv 3 ⟨[], 0⟩ [(Route.process, ⟨"POST", "/receipts/process", ""⟩),
        (Route.process, ⟨"POST", "/receipts/process", ""⟩)] = some (resps, s1) :=
  ⟨store_only_grows.1 exampleEnv 1 1 [(Route.process, ⟨"POST", "/receipts/process", ""⟩)]
    [(Route.points, ⟨"GET", "/receipts/00000000-0000-4000-8000-000000000000/points", ""⟩),
      (Route.process, ⟨"GET", "/receipts/process", ""⟩)]
    [⟨200, Payload.id "00000000-0000-4000-8000-000000000000"⟩]
    [⟨200, Payload.points 12⟩, ⟨405, Payload.text "Method Not Allowed"⟩]
    ⟨[("00000000-0000-4000-8000-000000000000", 12)], 1⟩
    ⟨[("00000000-0000-4000-8000-000000000000", 12)], 1⟩
    (by decide!) (by decide!) "00000000-0000-4000-8000-000000000000" 12 (by decide),
  store_only_grows.2.2.2.2 exampleEnv
    [(Route.process, ⟨"POST", "/receipts/process", ""⟩),
      (Route.process, ⟨"POST", "/receipts/process", ""⟩)] (by decide!)⟩

/-! ## Claims on the two rules of the total and on the order of the items -/

/-- C18: when `ParseFloat` returns a finite value `v` for the total and
`pointsForReceiptTotal` awards 50 with `v` not zero, then
`pointsForReceiptTotalMultipleOfQuarter` awards 25; the two rules together
give 0, 25, 50 or 75, and they give 50 only when `v` is zero. -/
theorem total_rules_together (s : String) (v : ℚ) (h : ParseFloat s = .ok (F64.fin v)) :
    (pointsForReceiptTotal s = 50 → v ≠ 0 → pointsForReceiptTotalMultipleOfQuarter s = 25) ∧
    (pointsForReceiptTotal s + pointsForReceiptTotalMultipleOfQuarter s = 0 ∨
      pointsForReceiptTotal s + pointsForReceiptTotalMultipleOfQuarter s = 25 ∨
      pointsForReceiptTotal s + pointsForReceiptTotalMultipleOfQuarter s = 50 ∨
      pointsForReceiptTotal s + pointsForReceiptTotalMultipleOfQuarter s = 75) ∧
    (pointsForReceiptTotal s + pointsForReceiptTotalMultipleOfQuarter s = 50 → v = 0) := by
  have hr := roundRule_fin s v h
  have hq := quarterRule_fin s v h
  have key : v = ((⌊v⌋ : ℤ) : ℚ) → v ≠ 0 →
      v - 1 / 4 * ((truncQ (v / (1 / 4)) : ℤ) : ℚ) = 0 ∧ v ≠ 0 := by
    intro hv h0
    refine ⟨(mod_quarter_eq_zero_iff v).mpr ⟨4 * ⌊v⌋, ?_⟩, h0⟩
    push_cast
    linarith
  by_cases hi : v = ((⌊v⌋ : ℤ) : ℚ)
  · rw [if_pos hi] at hr
    by_cases h0 : v = 0
    · have hq0 : ¬ (v - 1 / 4 * ((truncQ (v / (1 / 4)) : ℤ) : ℚ) = 0 ∧ v ≠ 0) :=
        fun hc => hc.2 h0
      rw [if_neg hq0] at hq
      rw [hr, hq]
      exact ⟨fun _ hne => absurd h0 hne, Or.inr (Or.inr (Or.inl rfl)), fun _ => h0⟩
    · rw [if_pos (key hi h0)] at hq
      rw [hr, hq]
      exact ⟨fun _ _ => rfl, Or.inr (Or.inr (Or.inr rfl)), fun h50 => absurd h50 (by decide)⟩
  · rw [if_neg hi] at hr
    rw [hr]
    refine ⟨fun h50 => absurd h50 (by decide), ?_, ?_⟩
    · by_cases hc : v - 1 / 4 * ((truncQ (v / (1 / 4)) : ℤ) : ℚ) = 0 ∧ v ≠ 0
      · rw [if_pos hc] at hq
        rw [hq]
        exact Or.inr (Or.inl rfl)
      · rw [if_neg hc] at hq
        rw [hq]
        exact Or.inl rfl
    · by_cases hc : v - 1 / 4 * ((truncQ (v / (1 / 4)) : ℤ) : ℚ) = 0 ∧ v ≠ 0
      · rw [if_pos hc] at hq
        rw [hq]
        intro h50
        exact absurd h50 (by decide)
      · rw [if_neg hc] at hq
        rw [hq]
        intro h50
        exact absurd h50 (by decide)

/-- Witness for C18: the total `"35.00"` parses to 35 and the two rules give
50 and 25. -/
theorem total_rules_together_witness :
    (pointsForReceiptTotal "35.00" = 50 → (35 : ℚ) ≠ 0 →
      pointsForReceiptTotalMultipleOfQuarter "35.00" = 25) ∧
    (pointsForReceiptTotal "35.00" + pointsForReceiptTotalMultipleOfQuarter "35.00" = 0 ∨
      pointsForReceiptTotal "35.00" + pointsForReceiptTotalMultipleOfQuarter "35.00" = 25 ∨
      pointsForReceiptTotal "35.00" + pointsForReceiptTotalMultipleOfQuarter "35.00" = 50 ∨
      pointsForReceiptTotal "35.00" + pointsForReceiptTotalMultipleOfQuarter "35.00" = 75) ∧
    (pointsForReceiptTotal "35.00" + pointsForReceiptTotalMultipleOfQuarter "35.00" = 50 →
      (35 : ℚ) = 0) :=
  total_rules_together "35.00" 35 (by decide!)

/-- C19: the score of a receipt does not depend on the order of its items:
a receipt whose item list is a permutation of that of another, the other
fields being the same, has the same score; so have the pair rule and the
description rule. -/
theorem calculateTotalPoints_perm (oor : F64 → ℤ) (r : Receipt) (items : List Item)
    (h : items.Perm r.Items) :
    calculateTotalPoints oor { r with Items := items } = calculateTotalPoints oor r ∧
    pointsPerTwoItems items = pointsPerTwoItems r.Items ∧
    totalPointsForShortDescription oor items =
      totalPointsForShortDescription oor r.Items := by
  have hp : pointsPerTwoItems items = pointsPerTwoItems r.Items := by
    unfold pointsPerTwoItems
    rw [h.length_eq]
  have ht : totalPointsForShortDescription oor items =
      totalPointsForShortDescription oor r.Items := by
    rw [totalPointsForShortDescription_eq, totalPointsForShortDescription_eq]
    congr 1
    exact (h.map (pointsForShortDescription oor)).sum_eq
  refine ⟨?_, hp, ht⟩
  rw [calculateTotalPoints_eq_wrap, calculateTotalPoints_eq_wrap]
  simp only [hp, ht]

/-- Witness for C19: two items, swapped. -/
theorem calculateTotalPoints_perm_witness :
    calculateTotalPoints (fun _ => 0)
      { (Receipt.mk "Target" "2022-01-01" "13:01"
          [⟨"Mountain Dew 12PK", "6.49"⟩, ⟨"Emils Cheese Pizza", "12.25"⟩] "35.35") with
        Items := [⟨"Emils Cheese Pizza", "12.25"⟩, ⟨"Mountain Dew 12PK", "6.49"⟩] } =
      calculateTotalPoints (fun _ => 0)
        (Receipt.mk "Target" "2022-01-01" "13:01"
          [⟨"Mountain Dew 12PK", "6.49"⟩, ⟨"Emils Cheese Pizza", "12.25"⟩] "35.35") :=
  (calculateTotalPoints_perm (fun _ => 0)
    (Receipt.mk "Target" "2022-01-01" "13:01"
      [⟨"Mountain Dew 12PK", "6.49"⟩, ⟨"Emils Cheese Pizza", "12.25"⟩] "35.35")
    [⟨"Emils Cheese Pizza", "12.25"⟩, ⟨"Mountain Dew 12PK", "6.49"⟩]
    (List.Perm.swap _ _ [])).1

/-! ## Lemmas: the binary exponent and the rounding error -/

theorem qpow_two_eq_zpow (e : ℤ) : qpow 2 e = (2 : ℚ) ^ e := by
  unfold qpow
  split
  · rename_i h
    have h1 : (2 : ℚ) ^ e = (2 : ℚ) ^ ((e.toNat : ℤ)) := by rw [Int.toNat_of_nonneg h]
    rw [h1, zpow_natCast]
    push_cast
    rfl
  · rename_i h
    have hneg : 0 ≤ -e := by omega
    have h1 : (2 : ℚ) ^ e = ((2 : ℚ) ^ (((-e).toNat : ℤ)))⁻¹ := by
      rw [Int.toNat_of_nonneg hneg, zpow_neg, inv_inv]
    rw [h1, zpow_natCast]
    push_cast
    rw [one_div]

theorem log2Fuel_spec (fuel : ℕ) : ∀ n : ℕ, n ≤ fuel → n ≠ 0 →
    2 ^ log2Fuel fuel n ≤ n ∧ n < 2 ^ (log2Fuel fuel n + 1) := by
  induction fuel with
  | zero =>
    intro n h h0
    omega
  | succ k ih =>
    intro n h h0
    unfold log2Fuel
    split
    · rename_i h2
      have : n = 1 := by omega
      subst this
      simp
    · rename_i h2
      have h3 := ih (n / 2) (by omega) (by omega)
      rw [pow_succ, pow_succ 2 (log2Fuel k (n / 2) + 1)]
      omega

theorem nlog2_spec (n : ℕ) (h : n ≠ 0) : 2 ^ nlog2 n ≤ n ∧ n < 2 ^ (nlog2 n + 1) :=
  log2Fuel_spec n n (le_refl n) h

theorem ilog2_spec (q : ℚ) (h : q ≠ 0) :
    (2 : ℚ) ^ ilog2 q ≤ |q| ∧ |q| < (2 : ℚ) ^ (ilog2 q + 1) := by
  have hn : q.num.natAbs ≠ 0 := by
    rw [Int.natAbs_ne_zero]
    exact Rat.num_ne_zero.mpr h
  have hd : q.den ≠ 0 := q.den_nz
  obtain ⟨ha1, ha2⟩ := nlog2_spec _ hn
  obtain ⟨hb1, hb2⟩ := nlog2_spec _ hd
  have habs : |q| = (q.num.natAbs : ℚ) / (q.den : ℚ) := by
    have h1 : |q| = |(q.num : ℚ)| / (q.den : ℚ) := by
      conv_lhs => rw [← Rat.num_div_den q]
      rw [abs_div, Nat.abs_cast]
    rw [h1, Nat.cast_natAbs, Int.cast_abs]
  have hdpos : (0 : ℚ) < (q.den : ℚ) := by exact_mod_cast Nat.pos_of_ne_zero hd
  have ha1q : (2 : ℚ) ^ (nlog2 q.num.natAbs) ≤ (q.num.natAbs : ℚ) := by exact_mod_cast ha1
  have ha2q : (q.num.natAbs : ℚ) < (2 : ℚ) ^ (nlog2 q.num.natAbs + 1) := by exact_mod_cast ha2
  have hb1q : (2 : ℚ) ^ (nlog2 q.den) ≤ (q.den : ℚ) := by exact_mod_cast hb1
  have hb2q : (q.den : ℚ) < (2 : ℚ) ^ (nlog2 q.den + 1) := by exact_mod_cast hb2
  have h2 : (0 : ℚ) < 2 := by norm_num
  have hz : ∀ a b : ℕ, (2 : ℚ) ^ ((a : ℤ) - (b : ℤ)) = (2 : ℚ) ^ a / (2 : ℚ) ^ b := by
    intro a b
    rw [zpow_sub₀ (by norm_num), zpow_natCast, zpow_natCast]
  unfold ilog2
  simp only [qpow_two_eq_zpow]
  split
  · rename_i hc
    refine ⟨hc, ?_⟩
    rw [zpow_add_one₀ (by norm_num), hz, habs, div_mul_eq_mul_div, div_lt_div_iff₀ hdpos
      (by positivity)]
    calc (q.num.natAbs : ℚ) * 2 ^ nlog2 q.den
        < 2 ^ (nlog2 q.num.natAbs + 1) * 2 ^ nlog2 q.den := by
          apply mul_lt_mul_of_pos_right ha2q (by positivity)
      _ = 2 ^ nlog2 q.num.natAbs * 2 * 2 ^ nlog2 q.den := by rw [pow_succ]
      _ ≤ 2 ^ nlog2 q.num.natAbs * 2 * (q.den : ℚ) := by
          apply mul_le_mul_of_nonneg_left hb1q (by positivity)
  · rename_i hc
    push_neg at hc
    constructor
    · rw [zpow_sub_one₀ (by norm_num), hz, habs, div_mul_eq_mul_div,
        div_le_div_iff₀ (by positivity) hdpos]
      have hb3 : (q.den : ℚ) ≤ (2 : ℚ) ^ nlog2 q.den * 2 := by
        rw [← pow_succ]
        exact le_of_lt hb2q
      calc (2 : ℚ) ^ nlog2 q.num.natAbs * (2 : ℚ)⁻¹ * (q.den : ℚ)
          ≤ (2 : ℚ) ^ nlog2 q.num.natAbs * (2 : ℚ)⁻¹ * ((2 : ℚ) ^ nlog2 q.den * 2) := by
            apply mul_le_mul_of_nonneg_left hb3 (by positivity)
        _ = (2 : ℚ) ^ nlog2 q.num.natAbs * (2 : ℚ) ^ nlog2 q.den := by
            ring
        _ ≤ (q.num.natAbs : ℚ) * (2 : ℚ) ^ nlog2 q.den := by
            apply mul_le_mul_of_nonneg_right ha1q (by positivity)
    · have : (↑(nlog2 q.num.natAbs) : ℤ) - ↑(nlog2 q.den) - 1 + 1 =
          (↑(nlog2 q.num.natAbs) : ℤ) - ↑(nlog2 q.den) := by ring
      rw [this]
      exact hc

theorem roundNE_error (q : ℚ) (h : q ≠ 0) :
    (∃ m : ℤ, roundNE q = (m : ℚ) * (2 : ℚ) ^ (max (ilog2 q) (-1022) - 52)) ∧
    |roundNE q - q| ≤ (2 : ℚ) ^ (max (ilog2 q) (-1022) - 52) / 2 := by
  have hu : (0 : ℚ) < (2 : ℚ) ^ (max (ilog2 q) (-1022) - 52) := by positivity
  have hfl := Int.floor_le (q / (2 : ℚ) ^ (max (ilog2 q) (-1022) - 52))
  have hfu := Int.lt_floor_add_one (q / (2 : ℚ) ^ (max (ilog2 q) (-1022) - 52))
  have hq : q = q / (2 : ℚ) ^ (max (ilog2 q) (-1022) - 52) *
      (2 : ℚ) ^ (max (ilog2 q) (-1022) - 52) := by
    field_simp
  have key : ∀ m : ℤ, |(m : ℚ) - q / (2 : ℚ) ^ (max (ilog2 q) (-1022) - 52)| ≤ 1 / 2 →
      |(m : ℚ) * (2 : ℚ) ^ (max (ilog2 q) (-1022) - 52) - q| ≤
        (2 : ℚ) ^ (max (ilog2 q) (-1022) - 52) / 2 := by
    intro m hm
    have e : (m : ℚ) * (2 : ℚ) ^ (max (ilog2 q) (-1022) - 52) - q =
        ((m : ℚ) - q / (2 : ℚ) ^ (max (ilog2 q) (-1022) - 52)) *
          (2 : ℚ) ^ (max (ilog2 q) (-1022) - 52) := by
      field_simp
    rw [e, abs_mul, abs_of_pos hu]
    calc |(m : ℚ) - q / (2 : ℚ) ^ (max (ilog2 q) (-1022) - 52)| *
          (2 : ℚ) ^ (max (ilog2 q) (-1022) - 52)
        ≤ 1 / 2 * (2 : ℚ) ^ (max (ilog2 q) (-1022) - 52) :=
          mul_le_mul_of_nonneg_right hm (le_of_lt hu)
      _ = (2 : ℚ) ^ (max (ilog2 q) (-1022) - 52) / 2 := by ring
  unfold roundNE
  rw [if_neg h]
  simp only [qpow_two_eq_zpow]
  split
  · rename_i hr
    refine ⟨⟨_, rfl⟩, key _ ?_⟩
    rw [abs_le]
    constructor <;> linarith
  · rename_i hr
    split
    · rename_i hr2
      refine ⟨⟨_, rfl⟩, key _ ?_⟩
      rw [abs_le]
      push_cast
      constructor <;> linarith
    · rename_i hr2
      split
      · refine ⟨⟨_, rfl⟩, key _ ?_⟩
        rw [abs_le]
        constructor <;> linarith
      · refine ⟨⟨_, rfl⟩, key _ ?_⟩
        rw [abs_le]
        push_cast
        constructor <;> linarith

theorem roundNE_nonpos (q : ℚ) (h : q ≤ 0) : roundNE q ≤ 0 := by
  unfold roundNE
  split
  · exact le_refl 0
  · rename_i h0
    have hu := qpow_two_pos (max (ilog2 q) (-1022) - 52)
    have hneg : q < 0 := lt_of_le_of_ne h h0
    have hk : q / qpow 2 (max (ilog2 q) (-1022) - 52) < 0 := div_neg_of_neg_of_pos hneg hu
    have hf : ⌊q / qpow 2 (max (ilog2 q) (-1022) - 52)⌋ + 1 ≤ 0 := by
      have h1 : ⌊q / qpow 2 (max (ilog2 q) (-1022) - 52)⌋ < 0 := by
        rw [Int.floor_lt]
        exact_mod_cast hk
      omega
    simp only
    apply mul_nonpos_of_nonpos_of_nonneg _ (le_of_lt hu)
    split
    · have : ⌊q / qpow 2 (max (ilog2 q) (-1022) - 52)⌋ ≤ 0 := by omega
      exact_mod_cast this
    · split
      · exact_mod_cast hf
      · split
        · have : ⌊q / qpow 2 (max (ilog2 q) (-1022) - 52)⌋ ≤ 0 := by omega
          exact_mod_cast this
        · exact_mod_cast hf

theorem roundNE_zero : roundNE 0 = 0 := by
  unfold roundNE
  rw [if_pos rfl]

/-- A `float64` above -5 and below 0 is at least the `float64` that follows
-5, which is `-5 + 2^(-50)`. -/
theorem roundNE_gt_neg_five (q : ℚ) (h5 : -5 < roundNE q) (h0 : roundNE q < 0) :
    -5 + (2 : ℚ) ^ (-50 : ℤ) ≤ roundNE q := by
  have hq0 : q ≠ 0 := by
    intro e
    rw [e, roundNE_zero] at h0
    exact lt_irrefl 0 h0
  have hqneg : q < 0 := by
    by_contra hc
    push_neg at hc
    have := roundNE_nonneg q hc
    linarith
  obtain ⟨⟨m, hm⟩, herr⟩ := roundNE_error q hq0
  obtain ⟨hlo, hhi⟩ := ilog2_spec q hq0
  have habs : |q| = -q := abs_of_neg hqneg
  rw [habs] at hlo hhi
  rw [abs_le] at herr
  have hle : ilog2 q ≤ max (ilog2 q) (-1022) := le_max_left _ _
  have h50 : (2 : ℚ) ^ (-50 : ℤ) = 1 / 1125899906842624 := by norm_num [zpow_neg]
  rcases lt_trichotomy (max (ilog2 q) (-1022)) 2 with hE | hE | hE
  · have hu : (2 : ℚ) ^ (max (ilog2 q) (-1022) - 52) ≤ (2 : ℚ) ^ (-51 : ℤ) :=
      zpow_le_zpow_right₀ (by norm_num) (by omega)
    have hq4 : (2 : ℚ) ^ (ilog2 q + 1) ≤ (2 : ℚ) ^ (2 : ℤ) :=
      zpow_le_zpow_right₀ (by norm_num) (by omega)
    have h51 : (2 : ℚ) ^ (-51 : ℤ) = 1 / 2251799813685248 := by norm_num [zpow_neg]
    have h2 : (2 : ℚ) ^ (2 : ℤ) = 4 := by norm_num
    rw [h50]
    rw [h51] at hu
    rw [h2] at hq4
    linarith [herr.1]
  · rw [hE] at hm
    have hm2 : roundNE q = (m : ℚ) * (2 : ℚ) ^ (-50 : ℤ) := by
      rw [hm]
      norm_num
    rw [hm2, h50] at h5 ⊢
    have h6 : (-5629499534213120 : ℚ) < (m : ℚ) := by
      have := h5
      field_simp at this
      linarith
    have h7 : (-5629499534213120 : ℤ) < m := by exact_mod_cast h6
    have h8 : ((-5629499534213119 : ℤ) : ℚ) ≤ (m : ℚ) := by
      exact_mod_cast (show (-5629499534213119 : ℤ) ≤ m by omega)
    push_cast at h8
    field_simp
    linarith
  · exfalso
    have he : max (ilog2 q) (-1022) = ilog2 q := by
      rcases max_choice (ilog2 q) (-1022) with hc | hc
      · exact hc
      · omega
    rw [he] at herr hE
    have h8 : (2 : ℚ) ^ (3 : ℤ) ≤ (2 : ℚ) ^ ilog2 q :=
      zpow_le_zpow_right₀ (by norm_num) (by omega)
    have h3 : (2 : ℚ) ^ (3 : ℤ) = 8 := by norm_num
    rw [h3] at h8
    have hu : (2 : ℚ) ^ (ilog2 q - 52) = (2 : ℚ) ^ ilog2 q * (2 : ℚ) ^ (-52 : ℤ) := by
      rw [← zpow_add₀ (by norm_num)]
      rfl
    have h52 : (2 : ℚ) ^ (-52 : ℤ) = 1 / 4503599627370496 := by norm_num [zpow_neg]
    rw [hu, h52] at herr
    nlinarith [herr.2]

/-- A fifth of a `float64` from `-5 + 2^(-50)` up to 0 rounds to a value
above -1 and not above 0. -/
theorem roundNE_fifth_small (v : ℚ) (hv : -5 + (2 : ℚ) ^ (-50 : ℤ) ≤ v) (h0 : v < 0) :
    -1 < roundNE (v * (3602879701896397 / 18014398509481984)) ∧
    roundNE (v * (3602879701896397 / 18014398509481984)) ≤ 0 := by
  have h50 : (2 : ℚ) ^ (-50 : ℤ) = 1 / 1125899906842624 := by norm_num [zpow_neg]
  rw [h50] at hv
  have hxneg : v * (3602879701896397 / 18014398509481984) < 0 :=
    mul_neg_of_neg_of_pos h0 (by norm_num)
  have hx0 : v * (3602879701896397 / 18014398509481984) ≠ 0 := ne_of_lt hxneg
  refine ⟨?_, roundNE_nonpos _ (le_of_lt hxneg)⟩
  obtain ⟨_, herr⟩ := roundNE_error _ hx0
  obtain ⟨hlo, _⟩ := ilog2_spec _ hx0
  rw [abs_of_neg hxneg] at hlo
  rw [abs_le] at herr
  have hx1 : -(v * (3602879701896397 / 18014398509481984)) < 1 := by linarith
  have he : ilog2 (v * (3602879701896397 / 18014398509481984)) < 0 := by
    by_contra hc
    push_neg at hc
    have : (1 : ℚ) ≤ (2 : ℚ) ^ ilog2 (v * (3602879701896397 / 18014398509481984)) :=
      one_le_zpow₀ (by norm_num) hc
    linarith
  have hu : (2 : ℚ) ^ (max (ilog2 (v * (3602879701896397 / 18014398509481984))) (-1022) - 52)
      ≤ (2 : ℚ) ^ (-53 : ℤ) := by
    apply zpow_le_zpow_right₀ (by norm_num)
    have : max (ilog2 (v * (3602879701896397 / 18014398509481984))) (-1022) ≤ -1 :=
      max_le (by omega) (by norm_num)
    omega
  have h53 : (2 : ℚ) ^ (-53 : ℤ) = 1 / 9007199254740992 := by norm_num [zpow_neg]
  rw [h53] at hu
  linarith [herr.1]

theorem special_not_fin (s : List Char) (f : F64) (n : ℕ) (h : special s = some (f, n)) :
    ∀ v : ℚ, f ≠ F64.fin v := by
  intro v hf
  subst hf
  unfold special at h
  split at h
  · simp at h
  · split at h
    · simp only at h
      split at h <;> simp at h
    · split at h
      · simp only at h
        split at h <;> simp at h
      · split at h
        · split at h <;> simp at h
        · simp at h

theorem parseFloat_fin_rounded (s : String) (v : ℚ) (h : ParseFloat s = .ok (F64.fin v)) :
    ∃ q : ℚ, v = roundNE q := by
  unfold ParseFloat at h
  split at h
  · rename_i f n hs
    split at h
    · simp only [Except.ok.injEq] at h
      exact absurd h (special_not_fin _ _ _ hs v)
    · simp at h
  · split at h
    · simp at h
    · rename_i l _
      simp only at h
      split at h
      · simp at h
      · simp only [Except.ok.injEq, F64.fin.injEq] at h
        exact ⟨l.value, h.symm⟩

/-- An item's points are not negative when its price fails to parse or
parses to a finite value above -5 whose fifth, rounded up, fits an `int`. -/
theorem pointsForShortDescription_nonneg_of_gt (oor : F64 → ℤ) (item : Item)
    (h : ∀ x, ParseFloat item.Price = .ok x → ∃ v : ℚ, x = F64.fin v ∧ -5 < v ∧
      ⌈roundNE (v * (3602879701896397 / 18014398509481984))⌉ < (2 : ℤ) ^ 63) :
    0 ≤ pointsForShortDescription oor item := by
  cases hp : ParseFloat item.Price with
  | error e =>
    unfold pointsForShortDescription
    rw [hp]
  | ok x =>
    obtain ⟨v, hx, hv, hc⟩ := h x hp
    subst hx
    by_cases hpos : 0 ≤ v
    · apply pointsForShortDescription_nonneg oor item
      intro y hy
      rw [hp] at hy
      simp only [Except.ok.injEq] at hy
      exact ⟨v, hy.symm, hpos, hc⟩
    · push_neg at hpos
      obtain ⟨q, hq⟩ := parseFloat_fin_rounded item.Price v hp
      have hv5 : -5 + (2 : ℚ) ^ (-50 : ℤ) ≤ v := by
        rw [hq]
        apply roundNE_gt_neg_five
        · rw [← hq]
          exact hv
        · rw [← hq]
          exact hpos
      obtain ⟨h1, h2⟩ := roundNE_fifth_small v hv5 hpos
      rw [pointsForShortDescription_fin oor item v hp]
      split
      · have hno : overflows (roundNE (v * (3602879701896397 / 18014398509481984))) =
            false := by
          unfold overflows
          rw [decide_eq_false_iff_not, abs_of_nonpos h2]
          have h3 := qpow_two_1024_gt
          have h4 : (1 : ℚ) ≤ (2 : ℚ) ^ 63 := one_le_pow₀ (by norm_num)
          push_neg
          linarith
        have hceil : ⌈roundNE (v * (3602879701896397 / 18014398509481984))⌉ = 0 := by
          rw [Int.ceil_eq_iff]
          constructor
          · push_cast
            linarith
          · exact_mod_cast h2
        unfold F64.ofRat
        simp only [hno, Bool.false_eq_true, ↓reduceIte, F64.Ceil, hceil]
        rw [toInt_intCast oor 0 (by decide) (by decide)]
      · exact le_refl 0

theorem ceil_product_neg_5 :
    F64.Ceil (F64.ofRat ((-5 : ℚ) * (3602879701896397 / 18014398509481984))) =
      F64.fin ((-1 : ℤ) : ℚ) := by decide!

/-- C20, as the code has it: each of the six rules other than the
description rule is not negative on any input; `pointsForShortDescription`
is not negative for an item whose price fails to parse or parses to a finite
value `v > -5` whose points `ceil(v * 0.2)` fit an `int`; and a receipt all
of whose items are so, and whose seven contributions add up to less than
`2^63`, has a score that is not negative and is at least
`pointsForRetailerName(retailer) + 5 * floor(len(items) / 2)`.  The bound -5
is the last: at the price `"-5"` the item `"abc"` gives -1. -/
theorem rules_nonneg :
    ((∀ s : String, 0 ≤ pointsForRetailerName s) ∧
      (∀ s : String, 0 ≤ pointsForReceiptTotal s) ∧
      (∀ s : String, 0 ≤ pointsForReceiptTotalMultipleOfQuarter s) ∧
      (∀ items : List Item, 0 ≤ pointsPerTwoItems items) ∧
      (∀ s : String, 0 ≤ pointsForOddDay s) ∧
      (∀ s : String, 0 ≤ pointsForPurchaseTime s)) ∧
    (∀ (oor : F64 → ℤ) (item : Item),
      (∀ x, ParseFloat item.Price = .ok x → ∃ v : ℚ, x = F64.fin v ∧ -5 < v ∧
        ⌈roundNE (v * (3602879701896397 / 18014398509481984))⌉ < (2 : ℤ) ^ 63) →
      0 ≤ pointsForShortDescription oor item) ∧
    (∀ (oor : F64 → ℤ) (r : Receipt),
      (∀ item ∈ r.Items, ∀ x, ParseFloat item.Price = .ok x →
        ∃ v : ℚ, x = F64.fin v ∧ -5 < v ∧
          ⌈roundNE (v * (3602879701896397 / 18014398509481984))⌉ < (2 : ℤ) ^ 63) →
      pointsForRetailerName r.Retailer + pointsForReceiptTotal r.Total +
        pointsForReceiptTotalMultipleOfQuarter r.Total + pointsPerTwoItems r.Items +
        (r.Items.map (pointsForShortDescription oor)).sum + pointsForOddDay r.PurchaseDate +
        pointsForPurchaseTime r.PurchaseTime < (2 : ℤ) ^ 63 →
      0 ≤ calculateTotalPoints oor r ∧
      pointsForRetailerName r.Retailer + 5 * ((r.Items.length / 2 : ℕ) : ℤ) ≤
        calculateTotalPoints oor r) ∧
    (fun oor : F64 → ℤ => pointsForShortDescription oor ⟨"abc", "-5"⟩) = fun _ => -1 := by
  refine ⟨⟨pointsForRetailerName_nonneg, pointsForReceiptTotal_nonneg,
    pointsForReceiptTotalMultipleOfQuarter_nonneg, pointsPerTwoItems_nonneg,
    pointsForOddDay_nonneg, pointsForPurchaseTime_nonneg⟩,
    pointsForShortDescription_nonneg_of_gt, fun oor r hprice hsum => ?_, ?_⟩
  · have h1 := pointsForRetailerName_nonneg r.Retailer
    have h2 := pointsForReceiptTotal_nonneg r.Total
    have h3 := pointsForReceiptTotalMultipleOfQuarter_nonneg r.Total
    have h4 := pointsPerTwoItems_nonneg r.Items
    have h5 := pointsForOddDay_nonneg r.PurchaseDate
    have h6 := pointsForPurchaseTime_nonneg r.PurchaseTime
    have h7 : 0 ≤ (r.Items.map (pointsForShortDescription oor)).sum := by
      apply list_sum_nonneg
      intro x hx
      obtain ⟨item, hi, rfl⟩ := List.mem_map.mp hx
      exact pointsForShortDescription_nonneg_of_gt oor item (hprice item hi)
    have h8 : totalPointsForShortDescription oor r.Items =
        (r.Items.map (pointsForShortDescription oor)).sum := by
      rw [totalPointsForShortDescription_eq]
      exact wrap64_of_range _ (by omega) (by omega)
    have h9 : pointsPerTwoItems r.Items = 5 * ((r.Items.length / 2 : ℕ) : ℤ) := by
      unfold pointsPerTwoItems
      push_cast
      ring
    rw [calculateTotalPoints_eq_wrap, h8, wrap64_of_range _ (by omega) (by omega)]
    constructor <;> omega
  · funext oor
    have hp : ParseFloat (Item.mk "abc" "-5").Price = .ok (F64.fin (-5)) := by decide!
    rw [pointsForShortDescription_fin oor _ _ hp, if_pos (by decide), ceil_product_neg_5]
    exact toInt_intCast oor (-1) (by decide) (by decide)

/-- Witness for C20: the item `"abc"` at the price `"-4.5"`, above -5, gives
no negative points. -/
theorem rules_nonneg_witness :
    0 ≤ pointsForShortDescription (fun _ => 0) ⟨"abc", "-4.5"⟩ :=
  rules_nonneg.2.1 (fun _ => 0) ⟨"abc", "-4.5"⟩
    (by
      intro x hx
      have hp : ParseFloat (Item.mk "abc" "-4.5").Price = .ok (F64.fin (-9 / 2)) := by
        decide!
      rw [hp] at hx
      injection hx with hx
      subst hx
      exact ⟨-9 / 2, rfl, by norm_num, by decide!⟩)

end ReceiptProcessor
